import Mathlib

/-!
A verification development for the document-search tool in `src/App.tsx`.

The embedding models JavaScript strings as `List Char` (`JSStr`). Case folding
(`String.prototype.toLowerCase`) and the word-character class of `RegExp`'s `\b`
and `\w` are modelled on their ASCII fragment, which is what the code's own
string constants and the specification's examples exercise. The `RegExp` values
the code builds from a search term (`term` or `\b(term)\b`, flags `g`/`gi`) are
modelled by a deterministic token machine over literal characters, the `.`
metacharacter (any character except a line terminator) and the `\b` word
boundary assertion; a term containing any other regex metacharacter falls
outside the modelled fragment and is mapped to a pattern-construction failure,
mirroring the `SyntaxError` that `new RegExp` raises on malformed patterns such
as `"("`.
-/

abbrev JSStr := List Char

/-! ## Character classes (ASCII fragments of the JS semantics) -/

/-- The ASCII fragment of `String.prototype.toLowerCase`: maps `A`-`Z` to
`a`-`z` and leaves every other character unchanged. -/
def toLowerChar (c : Char) : Char :=
  if 65 ≤ c.toNat ∧ c.toNat ≤ 90 then Char.ofNat (c.toNat + 32) else c

/-- `String.prototype.toLowerCase` applied to a whole string. -/
def toLowerStr (s : JSStr) : JSStr := s.map toLowerChar

/-- The `\w` class of JavaScript `RegExp` (no `u` flag): `[A-Za-z0-9_]`. -/
def isWordChar (c : Char) : Bool :=
  (97 ≤ c.toNat && c.toNat ≤ 122) || (65 ≤ c.toNat && c.toNat ≤ 90) ||
    (48 ≤ c.toNat && c.toNat ≤ 57) || c.toNat = 95

/-- JavaScript line terminators, which `.` does not match: LF, CR, LS, PS. -/
def isLineTermChar (c : Char) : Bool :=
  c.toNat = 10 || c.toNat = 13 || c.toNat = 8232 || c.toNat = 8233

/-- Regex metacharacters other than `.`: a term containing one of these is
outside the modelled fragment of `RegExp` (see the module docstring). -/
def metaChar (c : Char) : Bool :=
  c.toNat = 92 || c.toNat = 94 || c.toNat = 36 || c.toNat = 42 || c.toNat = 43 ||
    c.toNat = 63 || c.toNat = 40 || c.toNat = 41 || c.toNat = 91 || c.toNat = 93 ||
    c.toNat = 123 || c.toNat = 125 || c.toNat = 124

/-- JS whitespace recognised by `String.prototype.trim` (ASCII fragment plus
NBSP and the line separators). -/
def isJsWhitespace (c : Char) : Bool :=
  c.toNat = 32 || c.toNat = 9 || c.toNat = 10 || c.toNat = 13 || c.toNat = 11 ||
    c.toNat = 12 || c.toNat = 160 || c.toNat = 8232 || c.toNat = 8233 || c.toNat = 65279

/-- `String.prototype.trim`: drop leading and trailing whitespace. -/
def trimStr (s : JSStr) : JSStr :=
  ((s.dropWhile isJsWhitespace).reverse.dropWhile isJsWhitespace).reverse

/-- `text.split('\n')`: split on every LF, keeping empty pieces (so the result
is never empty). -/
def splitOnNl (s : JSStr) : List JSStr :=
  match s with
  | [] => [[]]
  | c :: rest =>
    match splitOnNl rest with
    | [] => [[]]
    | l :: ls => if c = '\n' then [] :: l :: ls else (c :: l) :: ls

/-- `Array.prototype.join('\n')`. -/
def joinNl (ls : List JSStr) : JSStr := List.intercalate ['\n'] ls

/-! ## The modelled `RegExp` fragment -/

/-- One token of a compiled pattern: a literal character, the `.`
metacharacter, or the `\b` word-boundary assertion. -/
inductive RTok where
  | lit (c : Char)
  | dot
  | wb
deriving DecidableEq, Repr

/-- Pattern-source characters: `.` compiles to the any-character token and
every non-metacharacter to a literal. Terms are used verbatim (unescaped), so
this is where the term-as-pattern quirk lives. -/
def parseTok (c : Char) : RTok :=
  if c = '.' then RTok.dot else RTok.lit c

def parseToks (t : JSStr) : List RTok := t.map parseTok

/-- `new RegExp(wholeWord ? "\\b" + pat + "\\b" : pat, flags)`, compiled to
tokens (the capture group used for highlighting does not affect matching). -/
def compileRegexTokens (wholeWord : Bool) (pat : JSStr) : List RTok :=
  if wholeWord then RTok.wb :: parseToks pat ++ [RTok.wb] else parseToks pat

/-- Character comparison: case-insensitive (`i` flag) folds both sides. -/
def charEq (ci : Bool) (a b : Char) : Bool :=
  if ci then toLowerChar a == toLowerChar b else a == b

/-- Is the character at index `i` of `s` a word character (out of range counts
as non-word)? -/
def wordAt (s : JSStr) (i : Nat) : Bool := isWordChar (s.getD i ' ') && decide (i < s.length)

/-- The `\b` assertion at position `i`: the wordness of the preceding and
current characters differ (out of range is non-word). -/
def isBoundary (s : JSStr) (i : Nat) : Bool :=
  (if i = 0 then false else wordAt s (i - 1)) != wordAt s i

/-- Attempt to match the token sequence at position `i` of `s`; returns the
end position on success. The modelled fragment is deterministic, so no
backtracking is needed. -/
def matchLen (ci : Bool) (s : JSStr) : List RTok → Nat → Option Nat
  | [], i => some i
  | RTok.wb :: ps, i => if isBoundary s i then matchLen ci s ps i else none
  | RTok.lit a :: ps, i =>
    if i < s.length && charEq ci a (s.getD i ' ') then matchLen ci s ps (i + 1) else none
  | RTok.dot :: ps, i =>
    if i < s.length && !isLineTermChar (s.getD i ' ') then matchLen ci s ps (i + 1) else none

/-- The scan loop of `String.prototype.match` with a global regex: try each
position left to right, skip past each (non-overlapping) match, advance by one
character after a zero-length match. `fuel` only forces termination; any fuel
of at least `s.length + 1 - i` gives the same answer. -/
def jsCountLoop (ci : Bool) (p : List RTok) (s : JSStr) : Nat → Nat → Nat
  | 0, _ => 0
  | fuel + 1, i =>
    if s.length < i then 0
    else
      match matchLen ci s p i with
      | some j => 1 + jsCountLoop ci p s fuel (max (i + 1) j)
      | none => jsCountLoop ci p s fuel (i + 1)

/-- `(str.match(regex) || []).length` for a global regex `p` over `str = s`,
starting the scan at position `i`. -/
def jsCountFrom (ci : Bool) (p : List RTok) (s : JSStr) (i : Nat) : Nat :=
  jsCountLoop ci p s (s.length + 1 - i) i

/-- The loop of `String.prototype.replace` with a global regex and replacement
`'**$1**'` (the group captures the whole match): copy unmatched characters,
wrap each match in `**`...`**`. -/
def jsReplaceLoop (ci : Bool) (p : List RTok) (s : JSStr) : Nat → Nat → JSStr
  | 0, _ => []
  | fuel + 1, i =>
    if s.length < i then []
    else
      match matchLen ci s p i with
      | some j =>
        if i < j then
          '*' :: '*' :: ((s.drop i).take (j - i) ++ '*' :: '*' :: jsReplaceLoop ci p s fuel j)
        else
          '*' :: '*' :: '*' :: '*' ::
            (if i < s.length then s.getD i ' ' :: jsReplaceLoop ci p s fuel (i + 1) else [])
      | none => if i < s.length then s.getD i ' ' :: jsReplaceLoop ci p s fuel (i + 1) else []

/-- `str.replace(regex, '**$1**')` for a global regex. -/
def jsReplace (ci : Bool) (p : List RTok) (s : JSStr) : JSStr :=
  jsReplaceLoop ci p s (s.length + 1) 0

/-! ## Data model (from `src/App.tsx`) -/

/-- `SearchOptions.matchType ∈ {'all', 'any'}`. -/
inductive MatchType where
  | all
  | any
deriving DecidableEq, Repr

/-- `interface SearchOptions` from the source. -/
structure SearchOptions where
  matchType : MatchType
  caseSensitive : Bool
  wholeWord : Bool
deriving DecidableEq, Repr

/-- One element of `SearchResult.matches` from the source. -/
structure MatchRecord where
  text : JSStr
  lineNumber : Nat
  context : JSStr
  occurrences : Nat
deriving DecidableEq, Repr

/-! ## LineMatcher: `findMatches` -/

/-- Per-line per-term count from `findMatches`: both line and term are
lowercased unless `caseSensitive` (and the `i` flag of `gi` is modelled by
`ci := !caseSensitive`), the term is wrapped in `\b`..`\b` when `wholeWord`,
and the global match count is taken:
`(lineToSearch.match(regex)?.length || 0)`. -/
def countTerm (o : SearchOptions) (line term : JSStr) : Nat :=
  let termToFind := if o.caseSensitive then term else toLowerStr term
  let lineToSearch := if o.caseSensitive then line else toLowerStr line
  jsCountFrom (!o.caseSensitive) (compileRegexTokens o.wholeWord termToFind) lineToSearch 0

/-- The line-level match decision of `findMatches`. -/
def lineIsMatchB (o : SearchOptions) (terms : List JSStr) (line : JSStr) : Bool :=
  let termMatches := terms.map (fun term => countTerm o line term)
  match o.matchType with
  | MatchType.all => termMatches.all (fun count => decide (0 < count))
  | MatchType.any => termMatches.any (fun count => decide (0 < count))

/-- The highlighting pass of `findMatches`: for each term in order, replace
every occurrence (term used unfolded; case-insensitivity via the `i` flag)
with `**$1**` in the context built so far. -/
def highlightTerms (o : SearchOptions) (terms : List JSStr) (context : JSStr) : JSStr :=
  terms.foldl
    (fun acc term =>
      jsReplace (!o.caseSensitive) (compileRegexTokens o.wholeWord term) acc)
    context

/-- The body of the `lines.forEach` in `findMatches` for line `index`:
`some record` when the line matches, `none` otherwise. -/
def processLine (o : SearchOptions) (terms : List JSStr) (lines : List JSStr)
    (index : Nat) : Option MatchRecord :=
  let line := lines.getD index []
  if lineIsMatchB o terms line then
    let termMatches := terms.map (fun term => countTerm o line term)
    let occurrences := termMatches.foldl (fun sum count => sum + count) 0
    let contextStart := index - 2
    let contextEnd := min (index + 3) lines.length
    let context := joinNl ((lines.drop contextStart).take (contextEnd - contextStart))
    let highlightedContext := highlightTerms o terms context
    some {
      text := trimStr line
      lineNumber := index + 1
      context := trimStr highlightedContext
      occurrences := occurrences }
  else none

/-- `findMatches` from the source: split into lines, return early on an empty
term list, otherwise emit one record per matching line in line order. -/
def findMatches (o : SearchOptions) (terms : List JSStr) (text : JSStr) : List MatchRecord :=
  let lines := splitOnNl text
  if terms.length = 0 then []
  else (List.range lines.length).filterMap (fun index => processLine o terms lines index)

/-- A term compiles to a `RegExp` inside the modelled fragment iff it contains
no metacharacter other than `.`. -/
def termsValid (terms : List JSStr) : Bool :=
  terms.all (fun t => !t.any metaChar)

/-- `findMatches` with the pattern-construction failure made explicit: in the
source, `new RegExp` is built per line per term, so with a nonempty term list
(and `split('\n')` never returning an empty array) a malformed term throws on
the first line; with an empty term list the function returns `[]` before any
`RegExp` is built. -/
def findMatchesE (o : SearchOptions) (terms : List JSStr) (text : JSStr) :
    Except String (List MatchRecord) :=
  if terms.length = 0 then Except.ok []
  else if termsValid terms then Except.ok (findMatches o terms text)
  else Except.error "Invalid regular expression"

/-! ## File processing (`handleFolderSelect`) -/

/-- `status ∈ {'success', 'error', 'unsupported'}`. -/
inductive FileStatus where
  | success
  | error
  | unsupported
deriving DecidableEq, Repr

/-- `interface SearchResult` from the source (one per file). -/
structure SearchResult where
  fileName : String
  filePath : String
  fileType : String
  status : FileStatus
  error : Option String
  «matches» : List MatchRecord
  matchCount : Nat
  totalOccurrences : Nat
deriving DecidableEq, Repr

deriving instance DecidableEq for Except

/-- A file descriptor at the input boundary. The three `Except` fields are
oracles for the outcomes of the external collaborators: the PDF.js extraction
pipeline, mammoth's raw-text extraction, and `file.text()`; at most one of
them is consulted per file, as decided by the routing. -/
structure JSFile where
  name : String
  webkitRelativePath : String
  type : String
  size : Nat
  pdfData : Except String JSStr
  wordData : Except String JSStr
  textData : Except String JSStr
deriving DecidableEq, Repr

/-- `needle` occurs at the front of `hay`. -/
def beginsWith : JSStr → JSStr → Bool
  | [], _ => true
  | _ :: _, [] => false
  | a :: as, b :: bs => a == b && beginsWith as bs

/-- `String.prototype.includes`. -/
def strIncludes (s sub : String) : Bool :=
  (List.range (s.toList.length + 1)).any (fun i => beginsWith sub.toList (s.toList.drop i))

/-- `String.prototype.endsWith`. -/
def strEndsWith (s suffix : String) : Bool :=
  beginsWith suffix.toList.reverse s.toList.reverse

/-- `extractTextFromPDF` from the source: surfaces the collaborator's result,
wrapping a failure in the function's own error message. -/
def extractTextFromPDF (f : JSFile) : Except String JSStr :=
  match f.pdfData with
  | Except.ok t => Except.ok t
  | Except.error m => Except.error ("PDF processing failed: " ++ m)

/-- `extractTextFromWord` from the source: mammoth's raw-text extraction, with
failures mapped to a fixed message. -/
def extractTextFromWord (f : JSFile) : Except String JSStr :=
  match f.wordData with
  | Except.ok t => Except.ok t
  | Except.error _ => Except.error "Failed to extract text from Word document"

/-- What the `try` block produces for one file when it does not throw. -/
inductive ProcessOutcome where
  | unsupported
  | matched (ms : List MatchRecord)
deriving DecidableEq, Repr

/-- Run `findMatches` on extracted text, propagating extraction and
pattern-construction failures. -/
def matchExtracted (o : SearchOptions) (terms : List JSStr)
    (extracted : Except String JSStr) : Except String ProcessOutcome :=
  extracted.bind (fun text => (findMatchesE o terms text).map ProcessOutcome.matched)

/-- The `try` block of the per-file closure in `handleFolderSelect`, in the
source's priority order: size guard, then PDF / Word / text routing by
declared type and extension, else the unsupported classification. -/
def tryProcess (o : SearchOptions) (terms : List JSStr) (f : JSFile) :
    Except String ProcessOutcome :=
  if f.size > 50 * 1024 * 1024 then Except.error "File too large (>50MB)"
  else if f.type = "application/pdf" then
    matchExtracted o terms (extractTextFromPDF f)
  else if f.type = "application/vnd.openxmlformats-officedocument.wordprocessingml.document"
      || f.type = "application/msword" then
    matchExtracted o terms (extractTextFromWord f)
  else if strIncludes f.type "text" || strEndsWith f.name ".txt" || strEndsWith f.name ".md" then
    matchExtracted o terms f.textData
  else Except.ok ProcessOutcome.unsupported

/-- The `result` record as initialised at the top of the per-file closure. -/
def baseRecord (f : JSFile) : SearchResult :=
  { fileName := f.name
    filePath := if f.webkitRelativePath = "" then f.name else f.webkitRelativePath
    fileType := if f.type = "" then "unknown" else f.type
    status := FileStatus.success
    error := none
    «matches» := []
    matchCount := 0
    totalOccurrences := 0 }

/-- Fill the base record from the `try` block's outcome: a caught exception
becomes `status = error` with its message; the unsupported classification
keeps zero matches; a successful match run fills the three derived fields. -/
def fileRecordOf (f : JSFile) (out : Except String ProcessOutcome) : SearchResult :=
  match out with
  | Except.error m => { baseRecord f with status := FileStatus.error, error := some m }
  | Except.ok ProcessOutcome.unsupported =>
    { baseRecord f with status := FileStatus.unsupported, error := some "Unsupported file type" }
  | Except.ok (ProcessOutcome.matched ms) =>
    { baseRecord f with
        «matches» := ms
        matchCount := ms.length
        totalOccurrences := ms.foldl (fun sum m => sum + m.occurrences) 0 }

/-- The whole per-file closure: every file yields exactly one record, whatever
happens inside the `try`. -/
def processFile (o : SearchOptions) (terms : List JSStr) (f : JSFile) : SearchResult :=
  fileRecordOf f (tryProcess o terms f)

/-! ## BatchScheduler -/

/-- `const BATCH_SIZE = 50`. -/
def BATCH_SIZE : Nat := 50

/-- The batch partition of the source loop: `ceil(length / n)` slices
`fileArray.slice(i*n, min((i+1)*n, length))`. -/
def batchesOf (n : Nat) (l : List JSFile) : List (List JSFile) :=
  (List.range ((l.length + n - 1) / n)).map (fun i => (l.drop (i * n)).take n)

/-- `Array.prototype.sort((a, b) => b.matchCount - a.matchCount)`: a stable
sort by descending `matchCount`. JS guarantees sort stability, and a stable
sort with respect to a total preorder has a unique result, so Mathlib's
(stable) insertion sort models it exactly. -/
def sortByMatchCount (rs : List SearchResult) : List SearchResult :=
  rs.insertionSort (fun a b => b.matchCount ≤ a.matchCount)

/-- The result store after the first `k` batch merges: each settled batch is
appended and the whole store re-sorted
(`setResults(prev => [...prev, ...batchResults].sort(...))`). -/
def storeAfter (o : SearchOptions) (terms : List JSStr) (files : List JSFile) (k : Nat) :
    List SearchResult :=
  ((batchesOf BATCH_SIZE files).take k).foldl
    (fun store batch => sortByMatchCount (store ++ batch.map (processFile o terms))) []

/-- The store at end of run. -/
def runStore (o : SearchOptions) (terms : List JSStr) (files : List JSFile) :
    List SearchResult :=
  storeAfter o terms files (batchesOf BATCH_SIZE files).length

/-- Batch `k` (empty when `k` is past the last batch). -/
def batchAt (files : List JSFile) (k : Nat) : List JSFile :=
  (batchesOf BATCH_SIZE files).getD k []

/-- The caller-visible outputs of a run: the result store (`setResults`), the
run-level error banner (`setError`), the progress counters, and the final
searching flag. -/
structure RunOutcome where
  results : List SearchResult
  error : Option String
  processedFiles : Nat
  totalFiles : Nat
  isSearching : Bool
deriving DecidableEq, Repr

/-- `handleFolderSelect`: returns `none` on the early guard (no terms), else
runs every batch. The run-level `catch` (which would set the generic error
banner) only fires if something escapes the per-file isolation; per-file
processing is total here, so the banner stays `none`. `processedFiles` is the
sum of the settled batch lengths. -/
def handleFolderSelect (o : SearchOptions) (terms : List JSStr) (files : List JSFile) :
    Option RunOutcome :=
  if terms.length = 0 then none
  else some {
    results := runStore o terms files
    error := none
    processedFiles := ((batchesOf BATCH_SIZE files).map List.length).sum
    totalFiles := files.length
    isSearching := false }

/-! ## CSVExporter (`downloadCSV`) -/

/-- `String(cell)` for a count. -/
def natDigits : Nat → Nat → JSStr
  | 0, _ => []
  | fuel + 1, n =>
    if n < 10 then [Char.ofNat (48 + n)]
    else natDigits fuel (n / 10) ++ [Char.ofNat (48 + n % 10)]

def natToStr (n : Nat) : JSStr := natDigits (n + 1) n

/-- `cell.replace(/"/g, '""')`. -/
def doubleQuotes : JSStr → JSStr
  | [] => []
  | c :: rest => if c = '"' then '"' :: '"' :: doubleQuotes rest else c :: doubleQuotes rest

/-- `` `"${String(cell).replace(/"/g, '""')}"` ``. -/
def escapeCell (cell : JSStr) : JSStr := '"' :: doubleQuotes cell ++ ['"']

/-- `Array.prototype.join(',')`. -/
def joinComma (cells : List JSStr) : JSStr := List.intercalate [','] cells

/-- The per-term occurrence count of `downloadCSV`: the same regex shape as
`findMatches` (`\b term \b` when wholeWord, flags `g`/`gi`), but applied to
the unfolded term and text — case-insensitivity comes solely from the `i`
flag here. -/
def csvTermCount (o : SearchOptions) (term matchText : JSStr) : Nat :=
  jsCountFrom (!o.caseSensitive) (compileRegexTokens o.wholeWord term) matchText 0

/-- The matched-line text a file contributes to the CSV counts:
`result.matches.map(m => m.text).join(' ')`. -/
def csvMatchText (r : SearchResult) : JSStr :=
  List.intercalate [' '] (r.matches.map MatchRecord.text)

/-- One data row of the CSV (before quoting). -/
def csvRowFor (o : SearchOptions) (terms : List JSStr) (r : SearchResult) : List JSStr :=
  [r.fileName.toList, r.filePath.toList]
    ++ (terms.map (fun term => natToStr (csvTermCount o term (csvMatchText r))))
    ++ [natToStr r.totalOccurrences]

/-- The CSV text built by `downloadCSV`: an unquoted header row, then one
quoted row per file with at least one match. -/
def downloadCSVContent (o : SearchOptions) (terms : List JSStr)
    (results : List SearchResult) : JSStr :=
  let matchingResults := results.filter (fun r => decide (0 < r.matchCount))
  let headers := ["File Name".toList, "File Path".toList] ++ terms ++ ["Total Occurrences".toList]
  let rows := matchingResults.map (fun r => csvRowFor o terms r)
  List.intercalate ['\n']
    (joinComma headers :: rows.map (fun row => joinComma (row.map escapeCell)))

/-! ## Specification-side definitions

These definitions restate, independently of the token machine, what the
specification means by "number of non-overlapping occurrences" (with optional
word-boundary anchoring); the theorems below prove the code's counting
primitive equal to them. -/

/-- The lowering of a compiled token. -/
def tokLower : RTok → RTok
  | RTok.lit c => RTok.lit (toLowerChar c)
  | RTok.dot => RTok.dot
  | RTok.wb => RTok.wb

/-- Fold case on both sides unless the search is case-sensitive. -/
def caseFold (cs : Bool) (s : JSStr) : JSStr := if cs then s else toLowerStr s

/-- Prefix test under a choice of character comparison. -/
def beginsWithCi (ci : Bool) : JSStr → JSStr → Bool
  | [], _ => true
  | _ :: _, [] => false
  | a :: as, b :: bs => charEq ci a b && beginsWithCi ci as bs

/-- Greedy non-overlapping count of literal occurrences of `pat`, scanning
left to right and skipping past each occurrence found. -/
def substrCountLoop (pat : JSStr) : Nat → JSStr → Nat
  | 0, _ => 0
  | fuel + 1, s =>
    match s with
    | [] => 0
    | _ :: rest =>
      if beginsWith pat s && !pat.isEmpty then 1 + substrCountLoop pat fuel (s.drop pat.length)
      else substrCountLoop pat fuel rest

def substrCount (pat s : JSStr) : Nat := substrCountLoop pat s.length s

/-- An occurrence of `pat` at position `i` of `s`, anchored at word boundaries
on both sides. -/
def wwAt (pat s : JSStr) (i : Nat) : Bool :=
  beginsWith pat (s.drop i) && isBoundary s i && isBoundary s (i + pat.length)

/-- Greedy non-overlapping count of word-boundary-anchored occurrences,
scanning positions left to right from `i`. -/
def wwCountLoop (pat s : JSStr) : Nat → Nat → Nat
  | 0, _ => 0
  | fuel + 1, i =>
    if s.length < i then 0
    else if wwAt pat s i then 1 + wwCountLoop pat s fuel (i + pat.length)
    else wwCountLoop pat s fuel (i + 1)

def wwCountFrom (pat s : JSStr) (i : Nat) : Nat :=
  wwCountLoop pat s (s.length + 1 - i) i

def wwCount (pat s : JSStr) : Nat := wwCountFrom pat s 0

/-! ## Character-level lemmas -/

theorem char_toNat_inj {a b : Char} (h : a.toNat = b.toNat) : a = b :=
  Char.eq_of_val_eq (UInt32.toNat.inj h)

theorem char_eq_iff_toNat {a b : Char} : a = b ↔ a.toNat = b.toNat :=
  ⟨fun h => h ▸ rfl, char_toNat_inj⟩

theorem toNat_ofNat_small (n : Nat) (h : n < 55296) : (Char.ofNat n).toNat = n := by
  have hv : n.isValidChar := Or.inl h
  simp [Char.ofNat, hv, Char.ofNatAux, Char.toNat, UInt32.toNat, BitVec.toNat_ofNatLt]

theorem toNat_toLowerChar (c : Char) :
    (toLowerChar c).toNat =
      if 65 ≤ c.toNat ∧ c.toNat ≤ 90 then c.toNat + 32 else c.toNat := by
  unfold toLowerChar
  split
  · next h => exact toNat_ofNat_small _ (by omega)
  · rfl

theorem toLowerChar_idem (c : Char) : toLowerChar (toLowerChar c) = toLowerChar c := by
  apply char_toNat_inj
  simp only [toNat_toLowerChar]
  split_ifs <;> omega

theorem isWordChar_toLowerChar (c : Char) : isWordChar (toLowerChar c) = isWordChar c := by
  rw [Bool.eq_iff_iff]
  simp only [isWordChar, toNat_toLowerChar, Bool.or_eq_true, Bool.and_eq_true,
    decide_eq_true_eq]
  split_ifs <;> omega

theorem isLineTermChar_toLowerChar (c : Char) :
    isLineTermChar (toLowerChar c) = isLineTermChar c := by
  rw [Bool.eq_iff_iff]
  simp only [isLineTermChar, toNat_toLowerChar, Bool.or_eq_true, decide_eq_true_eq]
  split_ifs <;> omega

theorem metaChar_toLowerChar (c : Char) : metaChar (toLowerChar c) = metaChar c := by
  rw [Bool.eq_iff_iff]
  simp only [metaChar, toNat_toLowerChar, Bool.or_eq_true, decide_eq_true_eq]
  split_ifs <;> omega

theorem toLowerChar_eq_dot_iff (c : Char) : toLowerChar c = '.' ↔ c = '.' := by
  rw [char_eq_iff_toNat, char_eq_iff_toNat, toNat_toLowerChar]
  have : ('.' : Char).toNat = 46 := by decide
  rw [this]
  split_ifs <;> omega

theorem parseTok_toLowerChar (c : Char) : parseTok (toLowerChar c) = tokLower (parseTok c) := by
  unfold parseTok
  by_cases hc : c = '.'
  · subst hc
    have hd : toLowerChar '.' = '.' := by decide
    simp [hd, tokLower]
  · have h2 : toLowerChar c ≠ '.' := fun h => hc ((toLowerChar_eq_dot_iff c).mp h)
    simp [hc, h2, tokLower]

theorem parseToks_toLowerStr (t : JSStr) :
    parseToks (toLowerStr t) = (parseToks t).map tokLower := by
  simp only [parseToks, toLowerStr, List.map_map]
  exact List.map_congr_left (fun c _ => parseTok_toLowerChar c)

theorem toLowerStr_idem (s : JSStr) : toLowerStr (toLowerStr s) = toLowerStr s := by
  simp only [toLowerStr, List.map_map]
  exact List.map_congr_left (fun c _ => toLowerChar_idem c)

theorem charEq_true_toLowerChar (a b : Char) :
    charEq true (toLowerChar a) (toLowerChar b) = charEq true a b := by
  simp [charEq, toLowerChar_idem]

/-! ## Matcher lemmas: fuel irrelevance and step equations -/

theorem jsCountLoop_fuel (ci : Bool) (p : List RTok) (s : JSStr) :
    ∀ f₁ f₂ i, s.length + 1 - i ≤ f₁ → s.length + 1 - i ≤ f₂ →
      jsCountLoop ci p s f₁ i = jsCountLoop ci p s f₂ i := by
  intro f₁
  induction f₁ with
  | zero =>
    intro f₂ i h₁ h₂
    have hi : s.length < i := by omega
    cases f₂ with
    | zero => rfl
    | succ f₂ => simp [jsCountLoop, hi]
  | succ f₁ ih =>
    intro f₂ i h₁ h₂
    cases f₂ with
    | zero =>
      have hi : s.length < i := by omega
      simp [jsCountLoop, hi]
    | succ f₂ =>
      simp only [jsCountLoop]
      by_cases hi : s.length < i
      · simp [hi]
      · simp only [if_neg hi]
        cases hm : matchLen ci s p i with
        | some j =>
          have : jsCountLoop ci p s f₁ (max (i + 1) j) = jsCountLoop ci p s f₂ (max (i + 1) j) := by
            apply ih <;> omega
          simp [this]
        | none =>
          apply ih <;> omega

theorem jsCountFrom_step (ci : Bool) (p : List RTok) (s : JSStr) (i : Nat) :
    jsCountFrom ci p s i =
      if s.length < i then 0
      else
        match matchLen ci s p i with
        | some j => 1 + jsCountFrom ci p s (max (i + 1) j)
        | none => jsCountFrom ci p s (i + 1) := by
  unfold jsCountFrom
  by_cases hi : s.length < i
  · have h0 : s.length + 1 - i = 0 := by omega
    rw [h0]
    simp [jsCountLoop, hi]
  · have hf : s.length + 1 - i = (s.length - i) + 1 := by omega
    rw [hf]
    simp only [jsCountLoop, if_neg hi]
    cases hm : matchLen ci s p i with
    | some j =>
      have : jsCountLoop ci p s (s.length - i) (max (i + 1) j) =
          jsCountLoop ci p s (s.length + 1 - max (i + 1) j) (max (i + 1) j) := by
        apply jsCountLoop_fuel <;> omega
      simp [this]
    | none =>
      have : jsCountLoop ci p s (s.length - i) (i + 1) =
          jsCountLoop ci p s (s.length + 1 - (i + 1)) (i + 1) := by
        apply jsCountLoop_fuel <;> omega
      simp [this]

theorem substrCountLoop_fuel (pat : JSStr) :
    ∀ f₁ f₂ (s : JSStr), s.length ≤ f₁ → s.length ≤ f₂ →
      substrCountLoop pat f₁ s = substrCountLoop pat f₂ s := by
  intro f₁
  induction f₁ with
  | zero =>
    intro f₂ s h₁ h₂
    have hs : s = [] := List.length_eq_zero.mp (by omega)
    subst hs
    cases f₂ with
    | zero => rfl
    | succ f₂ => simp [substrCountLoop]
  | succ f₁ ih =>
    intro f₂ s h₁ h₂
    cases f₂ with
    | zero =>
      have hs : s = [] := List.length_eq_zero.mp (by omega)
      subst hs
      simp [substrCountLoop]
    | succ f₂ =>
      cases s with
      | nil => simp [substrCountLoop]
      | cons c rest =>
        simp only [List.length_cons] at h₁ h₂
        simp only [substrCountLoop]
        by_cases hb : (beginsWith pat (c :: rest) && !pat.isEmpty) = true
        · have hpat : 1 ≤ pat.length := by
            rcases pat with _ | ⟨a, as⟩
            · simp at hb
            · simp
          rw [if_pos hb, if_pos hb]
          have := ih f₂ ((c :: rest).drop pat.length)
            (by simp only [List.length_drop, List.length_cons]; omega)
            (by simp only [List.length_drop, List.length_cons]; omega)
          rw [this]
        · rw [if_neg hb, if_neg hb]
          exact ih f₂ rest (by omega) (by omega)

theorem substrCount_step (pat : JSStr) (c : Char) (rest : JSStr) :
    substrCount pat (c :: rest) =
      if beginsWith pat (c :: rest) && !pat.isEmpty then
        1 + substrCount pat ((c :: rest).drop pat.length)
      else substrCount pat rest := by
  unfold substrCount
  rw [show (c :: rest).length = rest.length + 1 from by simp]
  simp only [substrCountLoop]
  by_cases hb : (beginsWith pat (c :: rest) && !pat.isEmpty) = true
  · have hpat : 1 ≤ pat.length := by
      rcases pat with _ | ⟨a, as⟩
      · simp at hb
      · simp
    rw [if_pos hb, if_pos hb]
    have := substrCountLoop_fuel pat rest.length ((c :: rest).drop pat.length).length
      ((c :: rest).drop pat.length)
      (by simp only [List.length_drop, List.length_cons]; omega) le_rfl
    rw [this]
  · rw [if_neg hb, if_neg hb]

/-! ## Matching a literal run -/

theorem matchLen_lits (ci : Bool) (s : JSStr) :
    ∀ (pat : JSStr) (i : Nat),
      matchLen ci s (pat.map RTok.lit) i =
        if beginsWithCi ci pat (s.drop i) then some (i + pat.length) else none := by
  intro pat
  induction pat with
  | nil => intro i; simp [matchLen, beginsWithCi]
  | cons a as ih =>
    intro i
    simp only [List.map_cons, matchLen]
    by_cases hi : i < s.length
    · have hdrop : s.drop i = s[i] :: s.drop (i + 1) := List.drop_eq_getElem_cons hi
      have hgd : s.getD i ' ' = s[i] := List.getD_eq_getElem s ' ' hi
      rw [hdrop, hgd]
      simp only [beginsWithCi]
      by_cases hc : charEq ci a s[i] = true
      · have hcond : (decide (i < s.length) && charEq ci a s[i]) = true := by simp [hi, hc]
        rw [if_pos hcond, ih (i + 1)]
        by_cases hb : beginsWithCi ci as (s.drop (i + 1)) = true
        · rw [if_pos hb, if_pos (by simp [hc, hb])]
          simp only [List.length_cons]
          congr 1
          omega
        · rw [if_neg hb, if_neg (by simp [hc, hb])]
      · have hcond : ¬((decide (i < s.length) && charEq ci a s[i]) = true) := by simp [hc]
        rw [if_neg hcond, if_neg (by simp [hc])]
    · have hdrop : s.drop i = [] := List.drop_eq_nil_of_le (by omega)
      rw [hdrop]
      have hcond : ¬((decide (i < s.length) && charEq ci a (s.getD i ' ')) = true) := by
        simp [hi]
      rw [if_neg hcond, if_neg (by simp [beginsWithCi])]

theorem beginsWithCi_false (pat s : JSStr) : beginsWithCi false pat s = beginsWith pat s := by
  induction pat generalizing s with
  | nil => simp [beginsWithCi, beginsWith]
  | cons a as ih =>
    cases s with
    | nil => simp [beginsWithCi, beginsWith]
    | cons b bs => simp [beginsWithCi, beginsWith, charEq, ih]

theorem matchLen_append (ci : Bool) (s : JSStr) :
    ∀ (p q : List RTok) (i : Nat),
      matchLen ci s (p ++ q) i = (matchLen ci s p i).bind (fun j => matchLen ci s q j) := by
  intro p
  induction p with
  | nil => intro q i; simp [matchLen]
  | cons t ps ih =>
    intro q i
    cases t with
    | wb =>
      simp only [List.cons_append, matchLen]
      by_cases hb : isBoundary s i = true
      · rw [if_pos hb, if_pos hb]; exact ih q i
      · rw [if_neg hb, if_neg hb]; rfl
    | lit a =>
      simp only [List.cons_append, matchLen]
      by_cases hb : (decide (i < s.length) && charEq ci a (s.getD i ' ')) = true
      · rw [if_pos hb, if_pos hb]; exact ih q (i + 1)
      · rw [if_neg hb, if_neg hb]; rfl
    | dot =>
      simp only [List.cons_append, matchLen]
      by_cases hb : (decide (i < s.length) && !isLineTermChar (s.getD i ' ')) = true
      · rw [if_pos hb, if_pos hb]; exact ih q (i + 1)
      · rw [if_neg hb, if_neg hb]; rfl

theorem matchLen_wb_lits (ci : Bool) (s pat : JSStr) (i : Nat) :
    matchLen ci s (RTok.wb :: pat.map RTok.lit ++ [RTok.wb]) i =
      if isBoundary s i && beginsWithCi ci pat (s.drop i) && isBoundary s (i + pat.length)
      then some (i + pat.length) else none := by
  simp only [List.cons_append, matchLen]
  by_cases h1 : isBoundary s i = true
  · rw [if_pos h1]
    rw [show (List.map RTok.lit pat).append [RTok.wb] = List.map RTok.lit pat ++ [RTok.wb]
      from rfl]
    rw [matchLen_append, matchLen_lits]
    by_cases h2 : beginsWithCi ci pat (s.drop i) = true
    · rw [if_pos h2]
      by_cases h3 : isBoundary s (i + pat.length) = true
      · simp [matchLen, h1, h2, h3]
      · simp [matchLen, h1, h2, h3]
    · rw [if_neg h2]
      simp [h1, h2]
  · rw [if_neg h1]
    simp [h1]

/-! ## Whole-word scan loop lemmas -/

theorem wwCountLoop_fuel (pat s : JSStr) (hp : pat ≠ []) :
    ∀ f₁ f₂ i, s.length + 1 - i ≤ f₁ → s.length + 1 - i ≤ f₂ →
      wwCountLoop pat s f₁ i = wwCountLoop pat s f₂ i := by
  have hpl : 1 ≤ pat.length := by
    rcases pat with _ | ⟨a, as⟩
    · exact absurd rfl hp
    · simp
  intro f₁
  induction f₁ with
  | zero =>
    intro f₂ i h₁ h₂
    have hi : s.length < i := by omega
    cases f₂ with
    | zero => rfl
    | succ f₂ => simp [wwCountLoop, hi]
  | succ f₁ ih =>
    intro f₂ i h₁ h₂
    cases f₂ with
    | zero =>
      have hi : s.length < i := by omega
      simp [wwCountLoop, hi]
    | succ f₂ =>
      simp only [wwCountLoop]
      by_cases hi : s.length < i
      · simp [hi]
      · rw [if_neg hi, if_neg hi]
        by_cases hw : wwAt pat s i = true
        · rw [if_pos hw, if_pos hw]
          have := ih f₂ (i + pat.length) (by omega) (by omega)
          rw [this]
        · rw [if_neg hw, if_neg hw]
          exact ih f₂ (i + 1) (by omega) (by omega)

theorem wwCountFrom_step (pat s : JSStr) (hp : pat ≠ []) (i : Nat) :
    wwCountFrom pat s i =
      if s.length < i then 0
      else if wwAt pat s i then 1 + wwCountFrom pat s (i + pat.length)
      else wwCountFrom pat s (i + 1) := by
  have hpl : 1 ≤ pat.length := by
    rcases pat with _ | ⟨a, as⟩
    · exact absurd rfl hp
    · simp
  unfold wwCountFrom
  by_cases hi : s.length < i
  · have h0 : s.length + 1 - i = 0 := by omega
    rw [h0]
    simp [wwCountLoop, hi]
  · have hf : s.length + 1 - i = (s.length - i) + 1 := by omega
    rw [hf]
    simp only [wwCountLoop, if_neg hi]
    by_cases hw : wwAt pat s i = true
    · rw [if_pos hw, if_pos hw]
      have := wwCountLoop_fuel pat s hp (s.length - i) (s.length + 1 - (i + pat.length))
        (i + pat.length) (by omega) (by omega)
      rw [this]
    · rw [if_neg hw, if_neg hw]
      exact wwCountLoop_fuel pat s hp (s.length - i) (s.length + 1 - (i + 1)) (i + 1)
        (by omega) (by omega)

/-! ## The global scan equals the specification-side counts -/

theorem length_pos_of_ne_nil {pat : JSStr} (hp : pat ≠ []) : 1 ≤ pat.length := by
  rcases pat with _ | ⟨a, as⟩
  · exact absurd rfl hp
  · simp

theorem isEmpty_false_of_ne_nil {pat : JSStr} (hp : pat ≠ []) : pat.isEmpty = false := by
  rcases pat with _ | ⟨a, as⟩
  · exact absurd rfl hp
  · rfl

theorem beginsWith_ne_nil {pat s : JSStr} (hp : pat ≠ []) (hb : beginsWith pat s = true) :
    s ≠ [] := by
  intro hs
  subst hs
  rcases pat with _ | ⟨a, as⟩
  · exact absurd rfl hp
  · simp [beginsWith] at hb

theorem jsCountFrom_lits_eq_substr (pat : JSStr) (hp : pat ≠ []) (s : JSStr) :
    ∀ i, jsCountFrom false (pat.map RTok.lit) s i = substrCount pat (s.drop i) := by
  have hpl : 1 ≤ pat.length := length_pos_of_ne_nil hp
  suffices H : ∀ n i, s.length + 1 - i ≤ n →
      jsCountFrom false (pat.map RTok.lit) s i = substrCount pat (s.drop i) by
    exact fun i => H (s.length + 1 - i) i le_rfl
  intro n
  induction n with
  | zero =>
    intro i h
    have hi : s.length < i := by omega
    rw [jsCountFrom_step, if_pos hi, List.drop_eq_nil_iff.mpr (by omega)]
    rfl
  | succ n ih =>
    intro i h
    rw [jsCountFrom_step]
    by_cases hi : s.length < i
    · rw [if_pos hi, List.drop_eq_nil_iff.mpr (by omega)]
      rfl
    · rw [if_neg hi, matchLen_lits, beginsWithCi_false]
      by_cases hb : beginsWith pat (s.drop i) = true
      · rw [if_pos hb]
        show 1 + jsCountFrom false (pat.map RTok.lit) s (max (i + 1) (i + pat.length)) =
          substrCount pat (s.drop i)
        have hmax : max (i + 1) (i + pat.length) = i + pat.length := by omega
        rw [hmax, ih (i + pat.length) (by omega)]
        obtain ⟨c, rest, hd⟩ := List.exists_cons_of_ne_nil (beginsWith_ne_nil hp hb)
        rw [hd, substrCount_step,
          if_pos (by rw [← hd]; simp [hb, isEmpty_false_of_ne_nil hp]), ← hd,
          List.drop_drop]
      · rw [if_neg hb]
        show jsCountFrom false (pat.map RTok.lit) s (i + 1) = substrCount pat (s.drop i)
        rw [ih (i + 1) (by omega)]
        cases hd : s.drop i with
        | nil =>
          have hlen : s.length ≤ i := List.drop_eq_nil_iff.mp hd
          have h2 : s.drop (i + 1) = [] := List.drop_eq_nil_iff.mpr (by omega)
          rw [h2]
        | cons c rest =>
          rw [hd] at hb
          rw [substrCount_step, if_neg (by simp [hb])]
          have : rest = s.drop (i + 1) := by
            have h3 := List.tail_drop s i
            rw [hd] at h3
            simpa using h3
          rw [this]

theorem jsCountFrom_wb_eq_ww (pat : JSStr) (hp : pat ≠ []) (s : JSStr) :
    ∀ i, jsCountFrom false (RTok.wb :: pat.map RTok.lit ++ [RTok.wb]) s i = wwCountFrom pat s i := by
  have hpl : 1 ≤ pat.length := length_pos_of_ne_nil hp
  suffices H : ∀ n i, s.length + 1 - i ≤ n →
      jsCountFrom false (RTok.wb :: pat.map RTok.lit ++ [RTok.wb]) s i = wwCountFrom pat s i by
    exact fun i => H (s.length + 1 - i) i le_rfl
  intro n
  induction n with
  | zero =>
    intro i h
    have hi : s.length < i := by omega
    rw [jsCountFrom_step, if_pos hi, wwCountFrom_step pat s hp, if_pos hi]
  | succ n ih =>
    intro i h
    rw [jsCountFrom_step, wwCountFrom_step pat s hp]
    by_cases hi : s.length < i
    · rw [if_pos hi, if_pos hi]
    · rw [if_neg hi, if_neg hi, matchLen_wb_lits, beginsWithCi_false]
      by_cases hw : wwAt pat s i = true
      · have hw' := hw
        simp only [wwAt, Bool.and_eq_true] at hw'
        obtain ⟨⟨hbw, hb1⟩, hb2⟩ := hw'
        have hcond : (isBoundary s i && beginsWith pat (s.drop i) &&
            isBoundary s (i + pat.length)) = true := by
          simp [hbw, hb1, hb2]
        rw [if_pos hcond, if_pos hw]
        show 1 + jsCountFrom false (RTok.wb :: pat.map RTok.lit ++ [RTok.wb]) s
            (max (i + 1) (i + pat.length)) = 1 + wwCountFrom pat s (i + pat.length)
        have hmax : max (i + 1) (i + pat.length) = i + pat.length := by omega
        rw [hmax, ih (i + pat.length) (by omega)]
      · have hcond : ¬((isBoundary s i && beginsWith pat (s.drop i) &&
            isBoundary s (i + pat.length)) = true) := by
          intro hc
          apply hw
          simp only [Bool.and_eq_true] at hc
          obtain ⟨⟨hc1, hc2⟩, hc3⟩ := hc
          simp [wwAt, hc1, hc2, hc3]
        rw [if_neg hcond, if_neg hw]
        show jsCountFrom false (RTok.wb :: pat.map RTok.lit ++ [RTok.wb]) s (i + 1) =
          wwCountFrom pat s (i + 1)
        exact ih (i + 1) (by omega)

/-! ## Case-insensitivity reductions -/

theorem charEq_true_eq (a b : Char) : charEq true a b = (toLowerChar a == toLowerChar b) := rfl

theorem charEq_false_eq (a b : Char) : charEq false a b = (a == b) := rfl

theorem matchLen_true_fixed (s : JSStr) (p : List RTok)
    (hp : ∀ a, RTok.lit a ∈ p → toLowerChar a = a) (hs : ∀ c ∈ s, toLowerChar c = c) :
    ∀ i, matchLen true s p i = matchLen false s p i := by
  induction p with
  | nil => intro i; rfl
  | cons t ps ih =>
    have hps : ∀ a, RTok.lit a ∈ ps → toLowerChar a = a :=
      fun a ha => hp a (List.mem_cons_of_mem _ ha)
    intro i
    cases t with
    | wb =>
      simp only [matchLen]
      by_cases hb : isBoundary s i = true
      · rw [if_pos hb, if_pos hb, ih hps]
      · rw [if_neg hb, if_neg hb]
    | lit a =>
      have ha : toLowerChar a = a := hp a (List.mem_cons_self _ _)
      simp only [matchLen]
      have hcondeq : (decide (i < s.length) && charEq true a (s.getD i ' '))
          = (decide (i < s.length) && charEq false a (s.getD i ' ')) := by
        by_cases hi : i < s.length
        · have hgd : s.getD i ' ' = s[i] := List.getD_eq_getElem s ' ' hi
          have hc : toLowerChar s[i] = s[i] := hs s[i] (List.getElem_mem hi)
          rw [hgd, charEq_true_eq, charEq_false_eq, ha, hc]
        · simp [hi]
      rw [hcondeq]
      by_cases hc : (decide (i < s.length) && charEq false a (s.getD i ' ')) = true
      · rw [if_pos hc, if_pos hc, ih hps]
      · rw [if_neg hc, if_neg hc]
    | dot =>
      simp only [matchLen]
      by_cases hb : (decide (i < s.length) && !isLineTermChar (s.getD i ' ')) = true
      · rw [if_pos hb, if_pos hb, ih hps]
      · rw [if_neg hb, if_neg hb]

theorem jsCountLoop_congr (ci₁ ci₂ : Bool) (p₁ p₂ : List RTok) (s₁ s₂ : JSStr)
    (hlen : s₁.length = s₂.length)
    (hml : ∀ i, matchLen ci₁ s₁ p₁ i = matchLen ci₂ s₂ p₂ i) :
    ∀ fuel i, jsCountLoop ci₁ p₁ s₁ fuel i = jsCountLoop ci₂ p₂ s₂ fuel i := by
  intro fuel
  induction fuel with
  | zero => intro i; rfl
  | succ fuel ih =>
    intro i
    simp only [jsCountLoop, hlen, hml]
    by_cases hi : s₂.length < i
    · rw [if_pos hi, if_pos hi]
    · rw [if_neg hi, if_neg hi]
      cases hm : matchLen ci₂ s₂ p₂ i with
      | some j => simp [ih]
      | none => simp [ih]

theorem jsCountFrom_congr (ci₁ ci₂ : Bool) (p₁ p₂ : List RTok) (s₁ s₂ : JSStr)
    (hlen : s₁.length = s₂.length)
    (hml : ∀ i, matchLen ci₁ s₁ p₁ i = matchLen ci₂ s₂ p₂ i) (i : Nat) :
    jsCountFrom ci₁ p₁ s₁ i = jsCountFrom ci₂ p₂ s₂ i := by
  unfold jsCountFrom
  rw [hlen]
  exact jsCountLoop_congr ci₁ ci₂ p₁ p₂ s₁ s₂ hlen hml _ i

theorem wordAt_toLowerStr (s : JSStr) (i : Nat) : wordAt (toLowerStr s) i = wordAt s i := by
  by_cases hi : i < s.length
  · have h1 : i < (toLowerStr s).length := by simpa [toLowerStr] using hi
    have h2 : (toLowerStr s).getD i ' ' = toLowerChar (s.getD i ' ') := by
      rw [List.getD_eq_getElem _ _ h1, List.getD_eq_getElem _ _ hi]
      simp [toLowerStr]
    unfold wordAt
    rw [h2, isWordChar_toLowerChar]
    have h3 : (toLowerStr s).length = s.length := by simp [toLowerStr]
    rw [h3]
  · have h1 : ¬i < (toLowerStr s).length := by simpa [toLowerStr] using hi
    unfold wordAt
    simp [hi, h1]

theorem isBoundary_toLowerStr (s : JSStr) (i : Nat) :
    isBoundary (toLowerStr s) i = isBoundary s i := by
  unfold isBoundary
  rw [wordAt_toLowerStr, wordAt_toLowerStr]

theorem matchLen_lower_invariant (s : JSStr) (p : List RTok) :
    ∀ i, matchLen true (toLowerStr s) (p.map tokLower) i = matchLen true s p i := by
  have hlen2 : (toLowerStr s).length = s.length := by simp [toLowerStr]
  induction p with
  | nil => intro i; rfl
  | cons t ps ih =>
    intro i
    cases t with
    | wb =>
      simp only [List.map_cons, tokLower, matchLen, isBoundary_toLowerStr]
      by_cases hb : isBoundary s i = true
      · rw [if_pos hb, if_pos hb, ih]
      · rw [if_neg hb, if_neg hb]
    | lit a =>
      simp only [List.map_cons, tokLower, matchLen]
      have hcondeq : (decide (i < (toLowerStr s).length)
            && charEq true (toLowerChar a) ((toLowerStr s).getD i ' '))
          = (decide (i < s.length) && charEq true a (s.getD i ' ')) := by
        rw [hlen2]
        by_cases hi : i < s.length
        · have h2 : (toLowerStr s).getD i ' ' = toLowerChar (s.getD i ' ') := by
            rw [List.getD_eq_getElem _ _ (by omega : i < (toLowerStr s).length),
              List.getD_eq_getElem _ _ hi]
            simp [toLowerStr]
          rw [h2, charEq_true_eq, charEq_true_eq, toLowerChar_idem, toLowerChar_idem]
        · simp [hi]
      rw [hcondeq]
      by_cases hc : (decide (i < s.length) && charEq true a (s.getD i ' ')) = true
      · rw [if_pos hc, if_pos hc, ih]
      · rw [if_neg hc, if_neg hc]
    | dot =>
      simp only [List.map_cons, tokLower, matchLen]
      have hcondeq : (decide (i < (toLowerStr s).length)
            && !isLineTermChar ((toLowerStr s).getD i ' '))
          = (decide (i < s.length) && !isLineTermChar (s.getD i ' ')) := by
        rw [hlen2]
        by_cases hi : i < s.length
        · have h2 : (toLowerStr s).getD i ' ' = toLowerChar (s.getD i ' ') := by
            rw [List.getD_eq_getElem _ _ (by omega : i < (toLowerStr s).length),
              List.getD_eq_getElem _ _ hi]
            simp [toLowerStr]
          rw [h2, isLineTermChar_toLowerChar]
        · simp [hi]
      rw [hcondeq]
      by_cases hc : (decide (i < s.length) && !isLineTermChar (s.getD i ' ')) = true
      · rw [if_pos hc, if_pos hc, ih]
      · rw [if_neg hc, if_neg hc]

theorem parseToks_all_lit (t : JSStr) (hd : ∀ c ∈ t, c ≠ '.') :
    parseToks t = t.map RTok.lit := by
  unfold parseToks
  exact List.map_congr_left (fun c hc => by simp [parseTok, hd c hc])

theorem compileRegexTokens_toLower (ww : Bool) (t : JSStr) :
    compileRegexTokens ww (toLowerStr t) = (compileRegexTokens ww t).map tokLower := by
  unfold compileRegexTokens
  cases ww with
  | false => simpa using parseToks_toLowerStr t
  | true => simp [parseToks_toLowerStr, tokLower]

/-! ## The counting primitive, characterised -/

theorem toLowerStr_ne_nil {t : JSStr} (ht : t ≠ []) : toLowerStr t ≠ [] := by
  rcases t with _ | ⟨a, as⟩
  · exact absurd rfl ht
  · simp [toLowerStr]

theorem toLowerStr_dot_free {t : JSStr} (hd : ∀ c ∈ t, c ≠ '.') :
    ∀ c ∈ toLowerStr t, c ≠ '.' := by
  intro c hc
  obtain ⟨c₀, hc₀, rfl⟩ := List.mem_map.mp hc
  intro hdot
  exact hd c₀ hc₀ ((toLowerChar_eq_dot_iff c₀).mp hdot)

theorem toLowerStr_fixed (t : JSStr) : ∀ c ∈ toLowerStr t, toLowerChar c = c := by
  intro c hc
  obtain ⟨c₀, hc₀, rfl⟩ := List.mem_map.mp hc
  exact toLowerChar_idem c₀

theorem lits_fixed_of_lower (term : JSStr) :
    ∀ a, RTok.lit a ∈ (toLowerStr term).map RTok.lit → toLowerChar a = a := by
  intro a ha
  rw [List.mem_map] at ha
  obtain ⟨c, hc, hlit⟩ := ha
  have hca : c = a := by injection hlit
  subst hca
  exact toLowerStr_fixed term c hc

theorem lits_fixed_wb (term : JSStr) :
    ∀ a, RTok.lit a ∈ RTok.wb :: (toLowerStr term).map RTok.lit ++ [RTok.wb] →
      toLowerChar a = a := by
  intro a ha
  rw [List.cons_append, List.mem_cons] at ha
  rcases ha with h | h
  · exact absurd h (by simp)
  · rw [List.mem_append] at h
    rcases h with h | h
    · exact lits_fixed_of_lower term a h
    · simp at h

theorem countTerm_eq_substrCount (mt : MatchType) (cs : Bool) (line term : JSStr)
    (hterm : term ≠ []) (hdot : ∀ c ∈ term, c ≠ '.') :
    countTerm ⟨mt, cs, false⟩ line term = substrCount (caseFold cs term) (caseFold cs line) := by
  cases cs with
  | true =>
    show jsCountFrom false (compileRegexTokens false term) line 0 = substrCount term line
    rw [show compileRegexTokens false term = parseToks term from rfl, parseToks_all_lit term hdot]
    have := jsCountFrom_lits_eq_substr term hterm line 0
    simpa using this
  | false =>
    show jsCountFrom true (compileRegexTokens false (toLowerStr term)) (toLowerStr line) 0 =
      substrCount (toLowerStr term) (toLowerStr line)
    rw [show compileRegexTokens false (toLowerStr term) = parseToks (toLowerStr term) from rfl,
      parseToks_all_lit (toLowerStr term) (toLowerStr_dot_free hdot)]
    rw [jsCountFrom_congr true false ((toLowerStr term).map RTok.lit)
      ((toLowerStr term).map RTok.lit) (toLowerStr line) (toLowerStr line) rfl
      (matchLen_true_fixed (toLowerStr line) ((toLowerStr term).map RTok.lit)
        (lits_fixed_of_lower term) (toLowerStr_fixed line)) 0]
    have := jsCountFrom_lits_eq_substr (toLowerStr term) (toLowerStr_ne_nil hterm)
      (toLowerStr line) 0
    simpa using this

theorem countTerm_eq_wwCount (mt : MatchType) (cs : Bool) (line term : JSStr)
    (hterm : term ≠ []) (hdot : ∀ c ∈ term, c ≠ '.') :
    countTerm ⟨mt, cs, true⟩ line term = wwCount (caseFold cs term) (caseFold cs line) := by
  cases cs with
  | true =>
    show jsCountFrom false (compileRegexTokens true term) line 0 = wwCount term line
    rw [show compileRegexTokens true term = RTok.wb :: parseToks term ++ [RTok.wb] from rfl,
      parseToks_all_lit term hdot]
    exact jsCountFrom_wb_eq_ww term hterm line 0
  | false =>
    show jsCountFrom true (compileRegexTokens true (toLowerStr term)) (toLowerStr line) 0 =
      wwCount (toLowerStr term) (toLowerStr line)
    rw [show compileRegexTokens true (toLowerStr term) =
        RTok.wb :: parseToks (toLowerStr term) ++ [RTok.wb] from rfl,
      parseToks_all_lit (toLowerStr term) (toLowerStr_dot_free hdot)]
    rw [jsCountFrom_congr true false
      (RTok.wb :: (toLowerStr term).map RTok.lit ++ [RTok.wb])
      (RTok.wb :: (toLowerStr term).map RTok.lit ++ [RTok.wb])
      (toLowerStr line) (toLowerStr line) rfl
      (matchLen_true_fixed (toLowerStr line) _
        (lits_fixed_wb term) (toLowerStr_fixed line)) 0]
    exact jsCountFrom_wb_eq_ww (toLowerStr term) (toLowerStr_ne_nil hterm) (toLowerStr line) 0

/-! ## `processLine` and `findMatches` structure lemmas -/

theorem foldl_add_eq_sum : ∀ (l : List Nat) (a : Nat), l.foldl (fun sum c => sum + c) a = a + l.sum := by
  intro l
  induction l with
  | nil => intro a; simp
  | cons x xs ih =>
    intro a
    simp only [List.foldl_cons, List.sum_cons, ih]
    omega

theorem processLine_lineNumber (o : SearchOptions) (terms : List JSStr) (lines : List JSStr)
    (i : Nat) (r : MatchRecord) (h : processLine o terms lines i = some r) :
    r.lineNumber = i + 1 := by
  unfold processLine at h
  dsimp only at h
  split at h
  · cases h
    rfl
  · cases h

theorem processLine_isSome (o : SearchOptions) (terms : List JSStr) (lines : List JSStr)
    (i : Nat) :
    (processLine o terms lines i).isSome = lineIsMatchB o terms (lines.getD i []) := by
  unfold processLine
  dsimp only
  split
  · next h =>
    simp only [Option.isSome_some]
    exact h.symm
  · next h =>
    simp only [Option.isSome_none]
    cases hb : lineIsMatchB o terms (lines.getD i []) with
    | false => rfl
    | true => exact absurd hb h

theorem processLine_occurrences (o : SearchOptions) (terms : List JSStr) (lines : List JSStr)
    (i : Nat) (r : MatchRecord) (h : processLine o terms lines i = some r) :
    r.occurrences = (terms.map (fun term => countTerm o (lines.getD i []) term)).sum := by
  unfold processLine at h
  dsimp only at h
  split at h
  · cases h
    show (terms.map (fun term => countTerm o (lines.getD i []) term)).foldl
      (fun sum count => sum + count) 0 = _
    rw [foldl_add_eq_sum]
    omega
  · cases h

theorem processLine_context (o : SearchOptions) (terms : List JSStr) (lines : List JSStr)
    (i : Nat) (r : MatchRecord) (h : processLine o terms lines i = some r) :
    r.context = trimStr (highlightTerms o terms
      (joinNl ((lines.drop (i - 2)).take (min (i + 3) lines.length - (i - 2))))) := by
  unfold processLine at h
  dsimp only at h
  split at h
  · cases h
    rfl
  · cases h

theorem splitOnNl_ne_nil (s : JSStr) : splitOnNl s ≠ [] := by
  induction s with
  | nil => simp [splitOnNl]
  | cons c rest ih =>
    unfold splitOnNl
    cases hs : splitOnNl rest with
    | nil => simp
    | cons l ls =>
      by_cases hc : c = '\n'
      · simp [hc]
      · simp [hc]

theorem countP_filterMap_range (f : Nat → Option MatchRecord)
    (key : ∀ j r, f j = some r → r.lineNumber = j + 1) (n : Nat) (i : Nat) :
    ((List.range n).filterMap f).countP (fun r => decide (r.lineNumber = i + 1)) =
      if i < n ∧ (f i).isSome then 1 else 0 := by
  induction n with
  | zero => simp
  | succ n ih =>
    rw [List.range_succ, List.filterMap_append, List.countP_append, ih]
    cases hf : f n with
    | none =>
      simp only [List.filterMap_cons, hf, List.filterMap_nil, List.countP_nil]
      by_cases hin : i < n
      · simp [hin, Nat.lt_succ_of_lt hin]
      · by_cases hieq : i = n
        · subst hieq
          simp [hf]
        · have h1 : ¬i < n + 1 := by omega
          simp [hin, h1]
    | some r =>
      have hr : r.lineNumber = n + 1 := key n r hf
      simp only [List.filterMap_cons, hf, List.filterMap_nil, List.countP_cons, List.countP_nil]
      by_cases hieq : i = n
      · subst hieq
        have h1 : ¬i < i := by omega
        simp [h1, hf, hr]
      · by_cases hin : i < n
        · have h1 : i < n + 1 := by omega
          have h2 : ¬(r.lineNumber = i + 1) := by omega
          simp [hin, h1, h2, hf]
        · have h1 : ¬i < n + 1 := by omega
          have h2 : ¬(r.lineNumber = i + 1) := by omega
          simp [hin, h1, h2]

/-! ## Claim C1 -/

/-- C1: `findMatches` returns exactly one `MatchRecord` per matching line, in
ascending 1-based line-number order; under `matchType = all` a line matches
iff every configured term's per-line occurrence count is positive, and under
`matchType = any` iff at least one is; and an empty term list yields no
matches for any text, despite the vacuous truth of the `all`-quantifier over
zero terms. -/
theorem findMatches_line_semantics (o : SearchOptions) (terms : List JSStr) (text : JSStr) :
    (terms = [] → findMatches o terms text = [])
    ∧ (findMatches o terms text).Pairwise (fun r₁ r₂ => r₁.lineNumber < r₂.lineNumber)
    ∧ (∀ i : Nat,
        (findMatches o terms text).countP (fun r => decide (r.lineNumber = i + 1)) =
          if terms.length ≠ 0 ∧ i < (splitOnNl text).length ∧
              lineIsMatchB o terms ((splitOnNl text).getD i []) = true then 1 else 0)
    ∧ (∀ line : JSStr,
        (o.matchType = MatchType.all →
          (lineIsMatchB o terms line = true ↔ ∀ t ∈ terms, 0 < countTerm o line t))
      ∧ (o.matchType = MatchType.any →
          (lineIsMatchB o terms line = true ↔ ∃ t ∈ terms, 0 < countTerm o line t))) := by
  refine ⟨?_, ?_, ?_, ?_⟩
  · intro h
    subst h
    rfl
  · by_cases ht : terms.length = 0
    · simp [findMatches, ht]
    · simp only [findMatches, if_neg ht]
      rw [List.pairwise_filterMap]
      refine (List.pairwise_lt_range _).imp ?_
      intro a b hab x hx y hy
      rw [Option.mem_def] at hx hy
      rw [processLine_lineNumber o terms _ a x hx, processLine_lineNumber o terms _ b y hy]
      omega
  · intro i
    by_cases ht : terms.length = 0
    · have : terms = [] := List.length_eq_zero.mp ht
      subst this
      simp [findMatches]
    · simp only [findMatches, if_neg ht]
      rw [countP_filterMap_range _ (fun j r h => processLine_lineNumber o terms _ j r h)]
      have hiff : (i < (splitOnNl text).length ∧
          (processLine o terms (splitOnNl text) i).isSome = true) ↔
          (terms.length ≠ 0 ∧ i < (splitOnNl text).length ∧
            lineIsMatchB o terms ((splitOnNl text).getD i []) = true) := by
        rw [processLine_isSome]
        simp [ht]
      simp only [hiff]
  · intro line
    constructor
    · intro hmt
      simp [lineIsMatchB, hmt, List.all_map, List.all_eq_true, Function.comp]
    · intro hmt
      simp [lineIsMatchB, hmt, List.any_map, List.any_eq_true, Function.comp]

/-! ## Claim C2 -/

theorem jsCount_dot_single (ci : Bool) (d : Char) (hd : isLineTermChar d = false) :
    jsCountFrom ci [RTok.dot] [d] 0 = 1 := by
  rw [jsCountFrom_step]
  rw [if_neg (by simp)]
  have hm : matchLen ci [d] [RTok.dot] 0 = some 1 := by
    simp [matchLen, hd]
  rw [hm]
  show 1 + jsCountFrom ci [RTok.dot] [d] (max 1 1) = 1
  rw [show max 1 1 = 1 from rfl, jsCountFrom_step]
  rw [if_neg (by simp)]
  have hm1 : matchLen ci [d] [RTok.dot] 1 = none := by
    simp [matchLen]
  rw [hm1]
  show 1 + jsCountFrom ci [RTok.dot] [d] 2 = 1
  rw [jsCountFrom_step, if_pos (by simp)]

theorem countTerm_dot_any (mt : MatchType) (cs : Bool) (c : Char)
    (hc : isLineTermChar c = false) :
    countTerm ⟨mt, cs, false⟩ [c] ['.'] = 1 := by
  cases cs with
  | true => exact jsCount_dot_single false c hc
  | false =>
    show jsCountFrom true (compileRegexTokens false (toLowerStr ['.'])) (toLowerStr [c]) 0 = 1
    have h1 : toLowerStr ['.'] = ['.'] := by decide
    have h2 : toLowerStr [c] = [toLowerChar c] := rfl
    rw [h1, h2]
    exact jsCount_dot_single true (toLowerChar c) (by rw [isLineTermChar_toLowerChar, hc])

/-- C2: the per-term count of the line matcher is the greedy non-overlapping
occurrence count of the term on the line, after case-folding both sides unless
`caseSensitive` and with word-boundary anchoring on both ends when
`wholeWord`; the term is used verbatim as pattern source, so `.` in a term
matches any (non-line-terminator) character rather than a literal dot; and
every emitted record's `occurrences` is the sum over all configured terms of
these per-line counts. -/
theorem countTerm_semantics (o : SearchOptions) (terms : List JSStr) (text : JSStr) :
    (∀ r ∈ findMatches o terms text, ∃ i, i < (splitOnNl text).length ∧ r.lineNumber = i + 1 ∧
        r.occurrences = (terms.map (fun term =>
          countTerm o ((splitOnNl text).getD i []) term)).sum)
    ∧ (∀ (cs : Bool) (mt : MatchType) (line term : JSStr), term ≠ [] →
        (∀ c ∈ term, metaChar c = false ∧ c ≠ '.') →
        countTerm ⟨mt, cs, false⟩ line term = substrCount (caseFold cs term) (caseFold cs line))
    ∧ (∀ (cs : Bool) (mt : MatchType) (line term : JSStr), term ≠ [] →
        (∀ c ∈ term, metaChar c = false ∧ c ≠ '.') →
        countTerm ⟨mt, cs, true⟩ line term = wwCount (caseFold cs term) (caseFold cs line))
    ∧ (∀ (cs : Bool) (mt : MatchType) (c : Char), isLineTermChar c = false →
        countTerm ⟨mt, cs, false⟩ [c] ['.'] = 1)
    ∧ substrCount ['.'] ['x'] = 0 := by
  refine ⟨?_, ?_, ?_, ?_, ?_⟩
  · intro r hr
    by_cases ht : terms.length = 0
    · simp [findMatches, ht] at hr
    · simp only [findMatches, if_neg ht] at hr
      rw [List.mem_filterMap] at hr
      obtain ⟨i, hi, hpl⟩ := hr
      rw [List.mem_range] at hi
      exact ⟨i, hi, processLine_lineNumber o terms _ i r hpl,
        processLine_occurrences o terms _ i r hpl⟩
  · intro cs mt line term hterm hmeta
    exact countTerm_eq_substrCount mt cs line term hterm (fun c hc => (hmeta c hc).2)
  · intro cs mt line term hterm hmeta
    exact countTerm_eq_wwCount mt cs line term hterm (fun c hc => (hmeta c hc).2)
  · intro cs mt c hc
    exact countTerm_dot_any mt cs c hc
  · decide

/-! ## Claim C3 -/

theorem drop_take_eq_range_map (l : List JSStr) (a b : Nat) (hb : b ≤ l.length) :
    (l.drop a).take (b - a) = (List.range' a (b - a)).map (fun j => l.getD j []) := by
  apply List.ext_getElem
  · simp only [List.length_take, List.length_drop, List.length_map, List.length_range']
    omega
  · intro k h1 h2
    simp only [List.length_take, List.length_drop] at h1
    have hk : k < b - a := by omega
    have hak : a + k < l.length := by omega
    rw [List.getElem_take, List.getElem_drop]
    rw [List.getElem_map, List.getElem_range']
    simp only [one_mul]
    rw [List.getD_eq_getElem _ _ hak]

theorem splitOnNl_length_pos (text : JSStr) : 1 ≤ (splitOnNl text).length := by
  cases h : splitOnNl text with
  | nil => exact absurd h (splitOnNl_ne_nil text)
  | cons l ls => simp

/-- C3: for every match at 0-based line index `i`, the context window built
before highlighting is exactly the contiguous span of lines
`max(0, i-2) .. min(lastLine, i+2)` inclusive, joined with the original line
breaks; the record's `context` field is that window after highlighting and
trimming. -/
theorem context_window_semantics (o : SearchOptions) (terms : List JSStr) (text : JSStr) :
    ∀ r ∈ findMatches o terms text, ∃ i,
      i < (splitOnNl text).length ∧ r.lineNumber = i + 1 ∧
      ((splitOnNl text).drop (i - 2)).take (min (i + 3) (splitOnNl text).length - (i - 2)) =
        (List.range' (i - 2) (min ((splitOnNl text).length - 1) (i + 2) + 1 - (i - 2))).map
          (fun j => (splitOnNl text).getD j []) ∧
      r.context = trimStr (highlightTerms o terms
        (joinNl (((splitOnNl text).drop (i - 2)).take
          (min (i + 3) (splitOnNl text).length - (i - 2))))) := by
  intro r hr
  by_cases ht : terms.length = 0
  · simp [findMatches, ht] at hr
  · simp only [findMatches, if_neg ht] at hr
    rw [List.mem_filterMap] at hr
    obtain ⟨i, hi, hpl⟩ := hr
    rw [List.mem_range] at hi
    have hn : 1 ≤ (splitOnNl text).length := splitOnNl_length_pos text
    refine ⟨i, hi, processLine_lineNumber o terms _ i r hpl, ?_, ?_⟩
    · have hcnt : min (i + 3) (splitOnNl text).length - (i - 2) =
          min ((splitOnNl text).length - 1) (i + 2) + 1 - (i - 2) := by omega
      rw [drop_take_eq_range_map (splitOnNl text) (i - 2) (min (i + 3) (splitOnNl text).length)
        (min_le_right _ _), hcnt]
    · exact processLine_context o terms _ i r hpl

/-! ## Claim C10 -/

theorem list_length_le_sum (l : List Nat) (h : ∀ x ∈ l, 1 ≤ x) : l.length ≤ l.sum := by
  induction l with
  | nil => simp
  | cons x xs ih =>
    simp only [List.length_cons, List.sum_cons]
    have hx : 1 ≤ x := h x (List.mem_cons_self _ _)
    have hxs : xs.length ≤ xs.sum := ih (fun y hy => h y (List.mem_cons_of_mem _ hy))
    omega

/-- C10: every emitted `MatchRecord` has `occurrences ≥ 1`, and under
`matchType = all` with `n` configured terms it has `occurrences ≥ n`. -/
theorem occurrences_lower_bound (o : SearchOptions) (terms : List JSStr) (text : JSStr) :
    ∀ r ∈ findMatches o terms text,
      1 ≤ r.occurrences ∧ (o.matchType = MatchType.all → terms.length ≤ r.occurrences) := by
  intro r hr
  by_cases ht : terms.length = 0
  · simp [findMatches, ht] at hr
  · simp only [findMatches, if_neg ht] at hr
    rw [List.mem_filterMap] at hr
    obtain ⟨i, hi, hpl⟩ := hr
    have hocc := processLine_occurrences o terms (splitOnNl text) i r hpl
    have hmatch : lineIsMatchB o terms ((splitOnNl text).getD i []) = true := by
      rw [← processLine_isSome o terms (splitOnNl text) i, hpl]
      rfl
    set line := (splitOnNl text).getD i [] with hline
    cases hmt : o.matchType with
    | all =>
      have hall : ∀ x ∈ terms.map (fun term => countTerm o line term), 1 ≤ x := by
        simp only [lineIsMatchB, hmt, List.all_eq_true] at hmatch
        intro x hx
        have := hmatch x hx
        simp only [decide_eq_true_eq] at this
        omega
      have hlen := list_length_le_sum _ hall
      rw [List.length_map] at hlen
      constructor
      · omega
      · intro _
        omega
    | any =>
      simp only [lineIsMatchB, hmt, List.any_eq_true] at hmatch
      obtain ⟨x, hx, hpos⟩ := hmatch
      simp only [decide_eq_true_eq] at hpos
      have hle : x ≤ (terms.map (fun term => countTerm o line term)).sum :=
        List.single_le_sum (fun y _ => Nat.zero_le y) x hx
      constructor
      · omega
      · intro hcontra
        simp at hcontra

/-! ## Batching lemmas -/

theorem batchesOf50_flatten_take (l : List JSFile) :
    ∀ m : Nat, ((List.range m).map (fun i => (l.drop (i * 50)).take 50)).flatten =
      l.take (m * 50) := by
  intro m
  induction m with
  | zero => simp
  | succ m ih =>
    rw [List.range_succ, List.map_append, List.flatten_append, ih]
    simp only [List.map_cons, List.map_nil, List.flatten_cons, List.flatten_nil,
      List.append_nil]
    rw [← List.take_add]
    congr 1
    ring

theorem batchesOf50_flatten (l : List JSFile) : (batchesOf 50 l).flatten = l := by
  unfold batchesOf
  rw [batchesOf50_flatten_take]
  apply List.take_of_length_le
  have : (l.length + 50 - 1) / 50 * 50 + 49 ≥ l.length + 49 := by
    have := Nat.div_add_mod (l.length + 49) 50
    omega
  omega

theorem batchesOf50_mem (l : List JSFile) (b : List JSFile) (hb : b ∈ batchesOf 50 l) :
    b ≠ [] ∧ b.length ≤ 50 := by
  unfold batchesOf at hb
  rw [List.mem_map] at hb
  obtain ⟨i, hi, rfl⟩ := hb
  rw [List.mem_range] at hi
  have hm : (l.length + 50 - 1) / 50 = (l.length + 49) / 50 := by norm_num
  rw [hm] at hi
  have hilt : i * 50 < l.length := by omega
  constructor
  · intro hnil
    have : ((l.drop (i * 50)).take 50).length = 0 := by rw [hnil]; rfl
    rw [List.length_take, List.length_drop] at this
    omega
  · rw [List.length_take]
    omega

theorem batchesOf50_dropLast (l : List JSFile) (b : List JSFile)
    (hb : b ∈ (batchesOf 50 l).dropLast) : b.length = 50 := by
  unfold batchesOf at hb
  have hm : (l.length + 50 - 1) / 50 = (l.length + 49) / 50 := by norm_num
  rw [hm] at hb
  cases hmm : (l.length + 49) / 50 with
  | zero => simp [hmm] at hb
  | succ m =>
    rw [hmm, List.range_succ, List.map_append, List.map_cons, List.map_nil,
      List.dropLast_concat] at hb
    rw [List.mem_map] at hb
    obtain ⟨i, hi, rfl⟩ := hb
    rw [List.mem_range] at hi
    have : i * 50 + 50 ≤ l.length := by omega
    rw [List.length_take, List.length_drop]
    omega

/-! ## Store lemmas -/

theorem foldl_occ_eq_sum : ∀ (ms : List MatchRecord) (a : Nat),
    ms.foldl (fun sum m => sum + m.occurrences) a = a + (ms.map MatchRecord.occurrences).sum := by
  intro ms
  induction ms with
  | nil => intro a; simp
  | cons m rest ih =>
    intro a
    simp only [List.foldl_cons, List.map_cons, List.sum_cons, ih]
    omega

theorem processFile_invariant (o : SearchOptions) (terms : List JSStr) (f : JSFile) :
    (processFile o terms f).matchCount = (processFile o terms f).matches.length ∧
      (processFile o terms f).totalOccurrences =
        ((processFile o terms f).matches.map MatchRecord.occurrences).sum := by
  unfold processFile fileRecordOf
  cases tryProcess o terms f with
  | error m => simp [baseRecord]
  | ok out =>
    cases out with
    | unsupported => simp [baseRecord]
    | matched ms =>
      constructor
      · rfl
      · show ms.foldl (fun sum m => sum + m.occurrences) 0 = (ms.map MatchRecord.occurrences).sum
        rw [foldl_occ_eq_sum]
        omega

theorem storeAfter_perm (o : SearchOptions) (terms : List JSStr) (files : List JSFile) :
    ∀ k, (storeAfter o terms files k).Perm
      ((((batchesOf BATCH_SIZE files).take k).flatten).map (processFile o terms)) := by
  intro k
  induction k with
  | zero => simp [storeAfter]
  | succ k ih =>
    have hts : (batchesOf BATCH_SIZE files).take (k + 1) =
        (batchesOf BATCH_SIZE files).take k ++ ((batchesOf BATCH_SIZE files)[k]?).toList :=
      List.take_succ
    unfold storeAfter
    rw [hts, List.foldl_append]
    cases hk : (batchesOf BATCH_SIZE files)[k]? with
    | none =>
      simp only [Option.toList_none, List.foldl_nil, List.flatten_append, List.flatten_nil,
        List.append_nil]
      exact ih
    | some b =>
      simp only [Option.toList_some, List.foldl_cons, List.foldl_nil, List.flatten_append,
        List.flatten_cons, List.flatten_nil, List.append_nil, List.map_append]
      exact (List.perm_insertionSort _ _).trans (ih.append_right _)

theorem runStore_perm (o : SearchOptions) (terms : List JSStr) (files : List JSFile) :
    (runStore o terms files).Perm (files.map (processFile o terms)) := by
  unfold runStore
  have h := storeAfter_perm o terms files (batchesOf BATCH_SIZE files).length
  rw [List.take_length] at h
  have hf : (batchesOf BATCH_SIZE files).flatten = files := batchesOf50_flatten files
  rw [hf] at h
  exact h

instance : IsTotal SearchResult (fun a b => b.matchCount ≤ a.matchCount) :=
  ⟨fun a b => Nat.le_total b.matchCount a.matchCount⟩

instance : IsTrans SearchResult (fun a b => b.matchCount ≤ a.matchCount) :=
  ⟨fun _ _ _ h1 h2 => Nat.le_trans h2 h1⟩

theorem sortByMatchCount_sorted (rs : List SearchResult) :
    (sortByMatchCount rs).Pairwise (fun a b => b.matchCount ≤ a.matchCount) :=
  List.sorted_insertionSort _ rs

theorem storeAfter_sorted (o : SearchOptions) (terms : List JSStr) (files : List JSFile)
    (k : Nat) :
    (storeAfter o terms files k).Pairwise (fun a b => b.matchCount ≤ a.matchCount) := by
  rcases List.eq_nil_or_concat ((batchesOf BATCH_SIZE files).take k) with h | ⟨l', b, h⟩
  · unfold storeAfter
    rw [h]
    exact List.Pairwise.nil
  · unfold storeAfter
    rw [h, List.concat_eq_append, List.foldl_append]
    simp only [List.foldl_cons, List.foldl_nil]
    exact sortByMatchCount_sorted _

/-! ## Claim C6 -/

/-- C6: after every batch merge the store is sorted by `matchCount`
descending; every record in the store satisfies
`matchCount = |matches|` and `totalOccurrences = Σ occurrences`; and each
merge appends the settled batch's records and re-sorts, never changing any
already-merged record (the new store is a permutation of the old store plus
the new batch's records, as values). -/
theorem store_invariants (o : SearchOptions) (terms : List JSStr) (files : List JSFile)
    (k : Nat) :
    (storeAfter o terms files (k + 1)).Perm
        (storeAfter o terms files k ++ (batchAt files k).map (processFile o terms))
    ∧ (storeAfter o terms files k).Pairwise (fun a b => b.matchCount ≤ a.matchCount)
    ∧ (∀ r ∈ storeAfter o terms files k,
        r.matchCount = r.matches.length ∧
        r.totalOccurrences = (r.matches.map MatchRecord.occurrences).sum)
    ∧ runStore o terms files = storeAfter o terms files (batchesOf BATCH_SIZE files).length := by
  refine ⟨?_, storeAfter_sorted o terms files k, ?_, rfl⟩
  · have hts : (batchesOf BATCH_SIZE files).take (k + 1) =
        (batchesOf BATCH_SIZE files).take k ++ ((batchesOf BATCH_SIZE files)[k]?).toList :=
      List.take_succ
    unfold storeAfter
    rw [hts, List.foldl_append]
    cases hk : (batchesOf BATCH_SIZE files)[k]? with
    | none =>
      simp only [Option.toList_none, List.foldl_nil]
      have hbat : batchAt files k = [] := by
        unfold batchAt
        rw [List.getD_eq_getElem?_getD, hk]
        rfl
      rw [hbat]
      simp
    | some b =>
      simp only [Option.toList_some, List.foldl_cons, List.foldl_nil]
      have hbat : batchAt files k = b := by
        unfold batchAt
        rw [List.getD_eq_getElem?_getD, hk]
        rfl
      rw [hbat]
      exact List.perm_insertionSort _ _
  · intro r hr
    have hperm := storeAfter_perm o terms files k
    have hmem := hperm.mem_iff.mp hr
    rw [List.mem_map] at hmem
    obtain ⟨f, _, rfl⟩ := hmem
    exact processFile_invariant o terms f

/-! ## Claim C8 -/

/-- C8: the scheduler partitions the input into consecutive batches of 50
(the last possibly smaller but never empty), every file belongs to exactly
one batch (the concatenation of the batches is the file list itself), and by
end of run the store holds exactly one record per file. -/
theorem batching_semantics (o : SearchOptions) (terms : List JSStr) (files : List JSFile) :
    (batchesOf 50 files).flatten = files
    ∧ (∀ b ∈ batchesOf 50 files, b ≠ [] ∧ b.length ≤ 50)
    ∧ (∀ b ∈ (batchesOf 50 files).dropLast, b.length = 50)
    ∧ BATCH_SIZE = 50
    ∧ (runStore o terms files).length = files.length := by
  refine ⟨batchesOf50_flatten files, ?_, ?_, rfl, ?_⟩
  · intro b hb
    exact batchesOf50_mem files b hb
  · intro b hb
    exact batchesOf50_dropLast files b hb
  · have h := (runStore_perm o terms files).length_eq
    rw [List.length_map] at h
    exact h

/-! ## Claim C4 -/

/-- C4: per-file failures — oversize rejection, extraction errors, and
matching errors such as a malformed term whose pattern construction fails —
are caught at file granularity and recorded as a `status = error` record with
a message, and no file's failure removes any other file's record: the final
store is always a permutation of one record per input file. -/
theorem fault_isolation (o : SearchOptions) (terms : List JSStr) (files : List JSFile) :
    (runStore o terms files).Perm (files.map (processFile o terms))
    ∧ (∀ (f : JSFile) (m : String), tryProcess o terms f = Except.error m →
        processFile o terms f =
          { baseRecord f with status := FileStatus.error, error := some m })
    ∧ (∀ f : JSFile, (processFile o terms f).status = FileStatus.error →
        (processFile o terms f).error.isSome = true)
    ∧ (∀ f : JSFile, f.size > 50 * 1024 * 1024 →
        tryProcess o terms f = Except.error "File too large (>50MB)")
    ∧ (∀ (f : JSFile) (m : String), f.size ≤ 50 * 1024 * 1024 →
        f.type = "application/pdf" → f.pdfData = Except.error m →
        tryProcess o terms f = Except.error ("PDF processing failed: " ++ m))
    ∧ (∀ (f : JSFile) (t : JSStr), f.size ≤ 50 * 1024 * 1024 →
        f.type ≠ "application/pdf" →
        f.type ≠ "application/vnd.openxmlformats-officedocument.wordprocessingml.document" →
        f.type ≠ "application/msword" →
        (strIncludes f.type "text" || strEndsWith f.name ".txt" ||
          strEndsWith f.name ".md") = true →
        f.textData = Except.ok t → terms.length ≠ 0 → termsValid terms = false →
        tryProcess o terms f = Except.error "Invalid regular expression") := by
  refine ⟨runStore_perm o terms files, ?_, ?_, ?_, ?_, ?_⟩
  · intro f m h
    unfold processFile
    rw [h]
    rfl
  · intro f
    unfold processFile fileRecordOf
    cases tryProcess o terms f with
    | error m => intro _; rfl
    | ok out =>
      cases out with
      | unsupported => intro h; cases h
      | matched ms => intro h; cases h
  · intro f hsize
    unfold tryProcess
    rw [if_pos hsize]
  · intro f m hsize htype hpdf
    unfold tryProcess
    rw [if_neg (by omega), if_pos htype]
    unfold matchExtracted extractTextFromPDF
    rw [hpdf]
    rfl
  · intro f t hsize hpdf hw1 hw2 htext hdata hterms hvalid
    unfold tryProcess
    rw [if_neg (by omega), if_neg hpdf, if_neg (by simp [hw1, hw2]), if_pos htext]
    unfold matchExtracted
    rw [hdata]
    show (findMatchesE o terms t).map ProcessOutcome.matched = Except.error _
    unfold findMatchesE
    rw [if_neg hterms, if_neg (by simp [hvalid])]
    rfl

/-! ## Claim C5 -/

/-- C5: extraction routing in priority order — a file over 50 MiB yields
`status = error` with the size-limit message and its extraction oracles are
never consulted; otherwise PDF type goes to the PDF decoder, the two Word
types to the Word decoder, a type containing `"text"` or a `.txt`/`.md` name
to the plain-text read; anything else is classified `unsupported` (not
`error`) with zero matches. -/
theorem routing_semantics (o : SearchOptions) (terms : List JSStr) (f : JSFile) :
    (f.size > 50 * 1024 * 1024 →
        (processFile o terms f).status = FileStatus.error
      ∧ (processFile o terms f).error = some "File too large (>50MB)"
      ∧ ∀ p w t : Except String JSStr,
          processFile o terms { f with pdfData := p, wordData := w, textData := t } =
            processFile o terms f)
    ∧ (f.size ≤ 50 * 1024 * 1024 → f.type = "application/pdf" →
        processFile o terms f = fileRecordOf f (matchExtracted o terms (extractTextFromPDF f)))
    ∧ (f.size ≤ 50 * 1024 * 1024 → f.type ≠ "application/pdf" →
        (f.type = "application/vnd.openxmlformats-officedocument.wordprocessingml.document" ∨
          f.type = "application/msword") →
        processFile o terms f = fileRecordOf f (matchExtracted o terms (extractTextFromWord f)))
    ∧ (f.size ≤ 50 * 1024 * 1024 → f.type ≠ "application/pdf" →
        f.type ≠ "application/vnd.openxmlformats-officedocument.wordprocessingml.document" →
        f.type ≠ "application/msword" →
        (strIncludes f.type "text" || strEndsWith f.name ".txt" ||
          strEndsWith f.name ".md") = true →
        processFile o terms f = fileRecordOf f (matchExtracted o terms f.textData))
    ∧ (f.size ≤ 50 * 1024 * 1024 → f.type ≠ "application/pdf" →
        f.type ≠ "application/vnd.openxmlformats-officedocument.wordprocessingml.document" →
        f.type ≠ "application/msword" →
        (strIncludes f.type "text" || strEndsWith f.name ".txt" ||
          strEndsWith f.name ".md") = false →
        (processFile o terms f).status = FileStatus.unsupported
      ∧ (processFile o terms f).status ≠ FileStatus.error
      ∧ (processFile o terms f).«matches» = []
      ∧ (processFile o terms f).matchCount = 0
      ∧ (processFile o terms f).error = some "Unsupported file type") := by
  refine ⟨?_, ?_, ?_, ?_, ?_⟩
  · intro hsize
    have hstep : ∀ g : JSFile, g.size > 50 * 1024 * 1024 →
        processFile o terms g =
          { baseRecord g with status := FileStatus.error, error := some "File too large (>50MB)" } := by
      intro g hg
      unfold processFile tryProcess
      rw [if_pos hg]
      rfl
    refine ⟨?_, ?_, ?_⟩
    · rw [hstep f hsize]
    · rw [hstep f hsize]
    · intro p w t
      rw [hstep f hsize, hstep { f with pdfData := p, wordData := w, textData := t } hsize]
      rfl
  · intro hsize htype
    unfold processFile tryProcess
    rw [if_neg (by omega), if_pos htype]
  · intro hsize hpdf hword
    unfold processFile tryProcess
    rw [if_neg (by omega), if_neg hpdf, if_pos (by
      rcases hword with h | h
      · simp [h]
      · simp [h])]
  · intro hsize hpdf hw1 hw2 htext
    unfold processFile tryProcess
    rw [if_neg (by omega), if_neg hpdf, if_neg (by simp [hw1, hw2]), if_pos htext]
  · intro hsize hpdf hw1 hw2 htext
    have : processFile o terms f = fileRecordOf f (Except.ok ProcessOutcome.unsupported) := by
      unfold processFile tryProcess
      rw [if_neg (by omega), if_neg hpdf, if_neg (by simp [hw1, hw2]),
        if_neg (by simp [htext])]
    rw [this]
    refine ⟨rfl, ?_, rfl, rfl, rfl⟩
    intro h
    cases h

/-! ## Claim C7 -/

theorem csvTermCount_eq_countTerm (o : SearchOptions) (term text : JSStr) :
    csvTermCount o term text = countTerm o text term := by
  obtain ⟨mt, cs, ww⟩ := o
  cases cs with
  | true => rfl
  | false =>
    show jsCountFrom true (compileRegexTokens ww term) text 0 =
      jsCountFrom true (compileRegexTokens ww (toLowerStr term)) (toLowerStr text) 0
    rw [compileRegexTokens_toLower]
    exact (jsCountFrom_congr true true ((compileRegexTokens ww term).map tokLower)
      (compileRegexTokens ww term) (toLowerStr text) text (by simp [toLowerStr])
      (matchLen_lower_invariant text (compileRegexTokens ww term)) 0).symm

theorem doubleQuotes_eq_flatMap (cell : JSStr) :
    doubleQuotes cell = cell.flatMap (fun c => if c = '"' then ['"', '"'] else [c]) := by
  induction cell with
  | nil => rfl
  | cons c rest ih =>
    unfold doubleQuotes
    rw [List.flatMap_cons]
    by_cases hc : c = '"'
    · rw [if_pos hc, if_pos hc, ih]
      rfl
    · rw [if_neg hc, if_neg hc, ih]
      rfl

/-- C7: the CSV export emits one data row for exactly the files with
`matchCount > 0`, in store order; the header row is file name, file path, one
column per configured term in order, and total occurrences (`n + 3` columns);
every data-row cell is quoted with internal quotes doubled and the cells are
comma-joined; and the per-term columns are occurrence counts computed by the
same counting primitive as the line matcher (`countTerm`, i.e. the same
case-sensitivity and whole-word rules) over the file's matched-line text. -/
theorem downloadCSV_semantics (o : SearchOptions) (terms : List JSStr)
    (results : List SearchResult) (hv : termsValid terms = true) :
    downloadCSVContent o terms results =
      List.intercalate ['\n']
        (joinComma (["File Name".toList, "File Path".toList] ++ terms
            ++ ["Total Occurrences".toList]) ::
          (results.filter (fun r => decide (0 < r.matchCount))).map (fun r =>
            joinComma ((([r.fileName.toList, r.filePath.toList]
              ++ (terms.map (fun term => natToStr (countTerm o (csvMatchText r) term)))
              ++ [natToStr r.totalOccurrences])).map escapeCell)))
    ∧ (["File Name".toList, "File Path".toList] ++ terms
        ++ ["Total Occurrences".toList]).length = terms.length + 3
    ∧ (∀ cell : JSStr, escapeCell cell =
        '"' :: (cell.flatMap (fun c => if c = '"' then ['"', '"'] else [c])) ++ ['"']) := by
  refine ⟨?_, by simp, ?_⟩
  · unfold downloadCSVContent
    dsimp only
    rw [List.map_map]
    congr 1
    congr 1
    apply List.map_congr_left
    intro r hr
    simp only [Function.comp_apply]
    unfold csvRowFor
    have hrow : terms.map (fun term => natToStr (csvTermCount o term (csvMatchText r))) =
        terms.map (fun term => natToStr (countTerm o (csvMatchText r) term)) :=
      List.map_congr_left (fun t _ => by rw [csvTermCount_eq_countTerm])
    rw [hrow]
  · intro cell
    unfold escapeCell
    rw [doubleQuotes_eq_flatMap]

/-! ## Claim C9 -/

/-- C9 counterexample: the claim says that an all-zero-matches run reports a
distinct "no results" condition to the caller. In the code the caller-visible
outputs of a run are the store, the error banner, the progress counters and
the searching flag; here a run in which every record has `matchCount = 0`
produces exactly the same non-store outputs (`error = none`, counters, flag)
as a run that found matches — no distinct no-results condition is ever
reported, the outcome is observable only through the records themselves. -/
theorem no_results_counterexample :
    ((handleFolderSelect ⟨MatchType.any, false, false⟩ [['q']]
        [⟨"a.txt", "a.txt", "text/plain", 3, Except.error "x", Except.error "x",
          Except.ok "xyz".toList⟩]).map
      (fun out => (out.error, out.processedFiles, out.totalFiles, out.isSearching,
        out.results.all (fun r => r.matchCount == 0))) = some (none, 1, 1, false, true))
    ∧ ((handleFolderSelect ⟨MatchType.any, false, false⟩ [['q']]
        [⟨"b.txt", "b.txt", "text/plain", 1, Except.error "x", Except.error "x",
          Except.ok "q".toList⟩]).map
      (fun out => (out.error, out.processedFiles, out.totalFiles, out.isSearching,
        out.results.any (fun r => decide (0 < r.matchCount)))) = some (none, 1, 1, false, true)) := by
  constructor
  · decide
  · decide

/-- C9 (amended): at end of run an all-zero-matchCount outcome is not treated
as an error — the run-level error banner stays unset and the searching flag is
cleared — but no distinct "no results" condition is reported; the caller sees
only the records themselves. -/
theorem no_results_not_error (o : SearchOptions) (terms : List JSStr) (files : List JSFile)
    (out : RunOutcome) (h : handleFolderSelect o terms files = some out)
    (hz : ∀ r ∈ out.results, r.matchCount = 0) :
    out.error = none ∧ out.isSearching = false := by
  unfold handleFolderSelect at h
  split at h
  · cases h
  · cases h
    exact ⟨rfl, rfl⟩

/-! ## Witnesses -/

theorem findMatches_line_semantics_witness :
    findMatches ⟨MatchType.all, false, false⟩ [] "abc".toList = []
    ∧ (findMatches ⟨MatchType.all, false, false⟩ ["a".toList] "a\nb\na".toList).countP
        (fun r => decide (r.lineNumber = 1)) = 1
    ∧ (lineIsMatchB ⟨MatchType.all, false, false⟩ ["a".toList] "a".toList = true ↔
        ∀ t ∈ ["a".toList], 0 < countTerm ⟨MatchType.all, false, false⟩ "a".toList t) := by
  refine ⟨(findMatches_line_semantics ⟨MatchType.all, false, false⟩ [] "abc".toList).1 rfl,
    ?_, ?_⟩
  · rw [(findMatches_line_semantics ⟨MatchType.all, false, false⟩ ["a".toList]
      "a\nb\na".toList).2.2.1 0]
    decide
  · exact ((findMatches_line_semantics ⟨MatchType.all, false, false⟩ ["a".toList]
      "a".toList).2.2.2 "a".toList).1 rfl

theorem countTerm_semantics_witness :
    (∃ i, i < (splitOnNl "a".toList).length ∧
      (⟨"a".toList, 1, "**a**".toList, 1⟩ : MatchRecord).lineNumber = i + 1 ∧
      (⟨"a".toList, 1, "**a**".toList, 1⟩ : MatchRecord).occurrences =
        ((["a".toList].map (fun term =>
          countTerm ⟨MatchType.any, false, false⟩ ((splitOnNl "a".toList).getD i []) term)).sum))
    ∧ countTerm ⟨MatchType.any, false, false⟩ "category theory".toList "cat".toList =
        substrCount (caseFold false "cat".toList) (caseFold false "category theory".toList)
    ∧ countTerm ⟨MatchType.any, false, true⟩ "category theory".toList "cat".toList =
        wwCount (caseFold false "cat".toList) (caseFold false "category theory".toList)
    ∧ countTerm ⟨MatchType.any, true, false⟩ ['x'] ['.'] = 1
    ∧ substrCount ['.'] ['x'] = 0 := by
  obtain ⟨h1, h2, h3, h4, h5⟩ :=
    countTerm_semantics ⟨MatchType.any, false, false⟩ ["a".toList] "a".toList
  exact ⟨h1 ⟨"a".toList, 1, "**a**".toList, 1⟩ (by decide),
    h2 false MatchType.any "category theory".toList "cat".toList (by decide) (by decide),
    h3 false MatchType.any "category theory".toList "cat".toList (by decide) (by decide),
    h4 true MatchType.any 'x' (by decide), h5⟩

theorem context_window_semantics_witness :
    ∃ i, i < (splitOnNl "a".toList).length ∧
      (⟨"a".toList, 1, "**a**".toList, 1⟩ : MatchRecord).lineNumber = i + 1 ∧
      ((splitOnNl "a".toList).drop (i - 2)).take
          (min (i + 3) (splitOnNl "a".toList).length - (i - 2)) =
        (List.range' (i - 2) (min ((splitOnNl "a".toList).length - 1) (i + 2) + 1 - (i - 2))).map
          (fun j => (splitOnNl "a".toList).getD j []) ∧
      (⟨"a".toList, 1, "**a**".toList, 1⟩ : MatchRecord).context =
        trimStr (highlightTerms ⟨MatchType.all, false, false⟩ ["a".toList]
          (joinNl (((splitOnNl "a".toList).drop (i - 2)).take
            (min (i + 3) (splitOnNl "a".toList).length - (i - 2))))) :=
  context_window_semantics ⟨MatchType.all, false, false⟩ ["a".toList] "a".toList
    ⟨"a".toList, 1, "**a**".toList, 1⟩ (by decide)

theorem occurrences_lower_bound_witness :
    1 ≤ (⟨"a".toList, 1, "**a**".toList, 1⟩ : MatchRecord).occurrences ∧
      ((⟨MatchType.all, false, false⟩ : SearchOptions).matchType = MatchType.all →
        (["a".toList] : List JSStr).length ≤
          (⟨"a".toList, 1, "**a**".toList, 1⟩ : MatchRecord).occurrences) :=
  occurrences_lower_bound ⟨MatchType.all, false, false⟩ ["a".toList] "a".toList
    ⟨"a".toList, 1, "**a**".toList, 1⟩ (by decide)

theorem fault_isolation_witness :
    (runStore ⟨MatchType.any, false, false⟩ [['(']]
        [⟨"a.txt", "a.txt", "text/plain", 3, Except.error "x", Except.error "x",
          Except.ok "xyz".toList⟩]).Perm
      ([⟨"a.txt", "a.txt", "text/plain", 3, Except.error "x", Except.error "x",
          Except.ok "xyz".toList⟩].map
        (processFile ⟨MatchType.any, false, false⟩ [['(']]))
    ∧ processFile ⟨MatchType.any, false, false⟩ [['(']]
        ⟨"b.txt", "dir/b.txt", "text/plain", 60000000, Except.error "x", Except.error "x",
          Except.ok "alpha".toList⟩ =
      { baseRecord ⟨"b.txt", "dir/b.txt", "text/plain", 60000000, Except.error "x",
          Except.error "x", Except.ok "alpha".toList⟩ with
        status := FileStatus.error, error := some "File too large (>50MB)" }
    ∧ (processFile ⟨MatchType.any, false, false⟩ [['(']]
        ⟨"b.txt", "dir/b.txt", "text/plain", 60000000, Except.error "x", Except.error "x",
          Except.ok "alpha".toList⟩).error.isSome = true
    ∧ tryProcess ⟨MatchType.any, false, false⟩ [['(']]
        ⟨"b.txt", "dir/b.txt", "text/plain", 60000000, Except.error "x", Except.error "x",
          Except.ok "alpha".toList⟩ = Except.error "File too large (>50MB)"
    ∧ tryProcess ⟨MatchType.any, false, false⟩ [['(']]
        ⟨"c.pdf", "c.pdf", "application/pdf", 5, Except.error "boom", Except.ok [],
          Except.ok []⟩ = Except.error ("PDF processing failed: " ++ "boom")
    ∧ tryProcess ⟨MatchType.any, false, false⟩ [['(']]
        ⟨"a.txt", "a.txt", "text/plain", 3, Except.error "x", Except.error "x",
          Except.ok "xyz".toList⟩ = Except.error "Invalid regular expression" := by
  obtain ⟨h1, h2, h3, h4, h5, h6⟩ := fault_isolation ⟨MatchType.any, false, false⟩ [['(']]
    [⟨"a.txt", "a.txt", "text/plain", 3, Except.error "x", Except.error "x",
      Except.ok "xyz".toList⟩]
  exact ⟨h1, h2 _ _ (by decide), h3 _ (by decide), h4 _ (by decide),
    h5 _ "boom" (by decide) (by decide) (by decide),
    h6 _ "xyz".toList (by decide) (by decide) (by decide) (by decide) (by decide) (by decide)
      (by decide) (by decide)⟩

theorem routing_semantics_witness :
    ((processFile ⟨MatchType.any, false, false⟩ [['q']]
        ⟨"b.txt", "dir/b.txt", "text/plain", 60000000, Except.error "x", Except.error "x",
          Except.ok "alpha".toList⟩).status = FileStatus.error
    ∧ processFile ⟨MatchType.any, false, false⟩ [['q']]
        { (⟨"b.txt", "dir/b.txt", "text/plain", 60000000, Except.error "x", Except.error "x",
            Except.ok "alpha".toList⟩ : JSFile) with
          pdfData := Except.ok [], wordData := Except.ok [], textData := Except.ok [] } =
      processFile ⟨MatchType.any, false, false⟩ [['q']]
        ⟨"b.txt", "dir/b.txt", "text/plain", 60000000, Except.error "x", Except.error "x",
          Except.ok "alpha".toList⟩)
    ∧ processFile ⟨MatchType.any, false, false⟩ [['q']]
        ⟨"c.pdf", "c.pdf", "application/pdf", 5, Except.ok "q".toList, Except.error "x",
          Except.error "x"⟩ =
      fileRecordOf ⟨"c.pdf", "c.pdf", "application/pdf", 5, Except.ok "q".toList,
          Except.error "x", Except.error "x"⟩
        (matchExtracted ⟨MatchType.any, false, false⟩ [['q']]
          (extractTextFromPDF ⟨"c.pdf", "c.pdf", "application/pdf", 5, Except.ok "q".toList,
            Except.error "x", Except.error "x"⟩))
    ∧ processFile ⟨MatchType.any, false, false⟩ [['q']]
        ⟨"d.doc", "d.doc", "application/msword", 5, Except.error "x", Except.ok "q".toList,
          Except.error "x"⟩ =
      fileRecordOf ⟨"d.doc", "d.doc", "application/msword", 5, Except.error "x",
          Except.ok "q".toList, Except.error "x"⟩
        (matchExtracted ⟨MatchType.any, false, false⟩ [['q']]
          (extractTextFromWord ⟨"d.doc", "d.doc", "application/msword", 5, Except.error "x",
            Except.ok "q".toList, Except.error "x"⟩))
    ∧ processFile ⟨MatchType.any, false, false⟩ [['q']]
        ⟨"a.txt", "a.txt", "text/plain", 3, Except.error "x", Except.error "x",
          Except.ok "xyz".toList⟩ =
      fileRecordOf ⟨"a.txt", "a.txt", "text/plain", 3, Except.error "x", Except.error "x",
          Except.ok "xyz".toList⟩
        (matchExtracted ⟨MatchType.any, false, false⟩ [['q']]
          (JSFile.textData ⟨"a.txt", "a.txt", "text/plain", 3, Except.error "x",
            Except.error "x", Except.ok "xyz".toList⟩))
    ∧ ((processFile ⟨MatchType.any, false, false⟩ [['q']]
        ⟨"d.xls", "d.xls", "application/vnd.ms-excel", 5, Except.ok [], Except.ok [],
          Except.ok []⟩).status = FileStatus.unsupported
    ∧ (processFile ⟨MatchType.any, false, false⟩ [['q']]
        ⟨"d.xls", "d.xls", "application/vnd.ms-excel", 5, Except.ok [], Except.ok [],
          Except.ok []⟩).matchCount = 0) := by
  obtain ⟨hA, hB, hC, hD, hE⟩ := routing_semantics ⟨MatchType.any, false, false⟩ [['q']]
    ⟨"b.txt", "dir/b.txt", "text/plain", 60000000, Except.error "x", Except.error "x",
      Except.ok "alpha".toList⟩
  have hA' := hA (by decide)
  refine ⟨⟨hA'.1, hA'.2.2 (Except.ok []) (Except.ok []) (Except.ok [])⟩, ?_, ?_, ?_, ?_⟩
  · exact (routing_semantics ⟨MatchType.any, false, false⟩ [['q']]
      ⟨"c.pdf", "c.pdf", "application/pdf", 5, Except.ok "q".toList, Except.error "x",
        Except.error "x"⟩).2.1 (by decide) (by decide)
  · exact (routing_semantics ⟨MatchType.any, false, false⟩ [['q']]
      ⟨"d.doc", "d.doc", "application/msword", 5, Except.error "x", Except.ok "q".toList,
        Except.error "x"⟩).2.2.1 (by decide) (by decide) (Or.inr rfl)
  · exact (routing_semantics ⟨MatchType.any, false, false⟩ [['q']]
      ⟨"a.txt", "a.txt", "text/plain", 3, Except.error "x", Except.error "x",
        Except.ok "xyz".toList⟩).2.2.2.1 (by decide) (by decide) (by decide) (by decide)
      (by decide)
  · have h := (routing_semantics ⟨MatchType.any, false, false⟩ [['q']]
      ⟨"d.xls", "d.xls", "application/vnd.ms-excel", 5, Except.ok [], Except.ok [],
        Except.ok []⟩).2.2.2.2 (by decide) (by decide) (by decide) (by decide) (by decide)
    exact ⟨h.1, h.2.2.2.1⟩

theorem store_invariants_witness :
    (storeAfter ⟨MatchType.any, false, false⟩ [['q']]
        [⟨"b.txt", "dir/b.txt", "text/plain", 60000000, Except.error "x", Except.error "x",
          Except.ok "alpha".toList⟩] (0 + 1)).Perm
      (storeAfter ⟨MatchType.any, false, false⟩ [['q']]
        [⟨"b.txt", "dir/b.txt", "text/plain", 60000000, Except.error "x", Except.error "x",
          Except.ok "alpha".toList⟩] 0 ++
        (batchAt [⟨"b.txt", "dir/b.txt", "text/plain", 60000000, Except.error "x",
            Except.error "x", Except.ok "alpha".toList⟩] 0).map
          (processFile ⟨MatchType.any, false, false⟩ [['q']]))
    ∧ ((⟨"b.txt", "dir/b.txt", "text/plain", FileStatus.error, some "File too large (>50MB)",
          [], 0, 0⟩ : SearchResult).matchCount =
        (⟨"b.txt", "dir/b.txt", "text/plain", FileStatus.error, some "File too large (>50MB)",
          [], 0, 0⟩ : SearchResult).matches.length
      ∧ (⟨"b.txt", "dir/b.txt", "text/plain", FileStatus.error, some "File too large (>50MB)",
          [], 0, 0⟩ : SearchResult).totalOccurrences =
        ((⟨"b.txt", "dir/b.txt", "text/plain", FileStatus.error, some "File too large (>50MB)",
          [], 0, 0⟩ : SearchResult).matches.map MatchRecord.occurrences).sum)
    ∧ runStore ⟨MatchType.any, false, false⟩ [['q']]
        [⟨"b.txt", "dir/b.txt", "text/plain", 60000000, Except.error "x", Except.error "x",
          Except.ok "alpha".toList⟩] =
      storeAfter ⟨MatchType.any, false, false⟩ [['q']]
        [⟨"b.txt", "dir/b.txt", "text/plain", 60000000, Except.error "x", Except.error "x",
          Except.ok "alpha".toList⟩]
        (batchesOf BATCH_SIZE
          [⟨"b.txt", "dir/b.txt", "text/plain", 60000000, Except.error "x", Except.error "x",
            Except.ok "alpha".toList⟩]).length := by
  have h0 := store_invariants ⟨MatchType.any, false, false⟩ [['q']]
    [⟨"b.txt", "dir/b.txt", "text/plain", 60000000, Except.error "x", Except.error "x",
      Except.ok "alpha".toList⟩] 0
  have h1 := store_invariants ⟨MatchType.any, false, false⟩ [['q']]
    [⟨"b.txt", "dir/b.txt", "text/plain", 60000000, Except.error "x", Except.error "x",
      Except.ok "alpha".toList⟩] 1
  exact ⟨h0.1, h1.2.2.1 _ (by decide), h0.2.2.2⟩

theorem batching_semantics_witness :
    (batchesOf 50
        [⟨"a.txt", "a.txt", "text/plain", 3, Except.error "x", Except.error "x",
          Except.ok "xyz".toList⟩,
         ⟨"b.txt", "dir/b.txt", "text/plain", 60000000, Except.error "x", Except.error "x",
          Except.ok "alpha".toList⟩]).flatten =
      [⟨"a.txt", "a.txt", "text/plain", 3, Except.error "x", Except.error "x",
          Except.ok "xyz".toList⟩,
       ⟨"b.txt", "dir/b.txt", "text/plain", 60000000, Except.error "x", Except.error "x",
          Except.ok "alpha".toList⟩]
    ∧ ([⟨"a.txt", "a.txt", "text/plain", 3, Except.error "x", Except.error "x",
          Except.ok "xyz".toList⟩,
        ⟨"b.txt", "dir/b.txt", "text/plain", 60000000, Except.error "x", Except.error "x",
          Except.ok "alpha".toList⟩] : List JSFile) ≠ []
    ∧ BATCH_SIZE = 50
    ∧ (runStore ⟨MatchType.any, false, false⟩ [['q']]
        [⟨"a.txt", "a.txt", "text/plain", 3, Except.error "x", Except.error "x",
          Except.ok "xyz".toList⟩,
         ⟨"b.txt", "dir/b.txt", "text/plain", 60000000, Except.error "x", Except.error "x",
          Except.ok "alpha".toList⟩]).length = 2 := by
  obtain ⟨ha, hb, hc, hd, he⟩ := batching_semantics ⟨MatchType.any, false, false⟩ [['q']]
    [⟨"a.txt", "a.txt", "text/plain", 3, Except.error "x", Except.error "x",
      Except.ok "xyz".toList⟩,
     ⟨"b.txt", "dir/b.txt", "text/plain", 60000000, Except.error "x", Except.error "x",
      Except.ok "alpha".toList⟩]
  exact ⟨ha, (hb _ (by decide)).1, hd, he⟩

theorem downloadCSV_semantics_witness :
    downloadCSVContent ⟨MatchType.any, false, false⟩ ["a".toList]
      [⟨"a.txt", "a.txt", "text/plain", FileStatus.success, none,
        [⟨"a a".toList, 1, "**a** **a**".toList, 2⟩], 1, 2⟩] =
      List.intercalate ['\n']
        (joinComma (["File Name".toList, "File Path".toList] ++ ["a".toList]
            ++ ["Total Occurrences".toList]) ::
          ([(⟨"a.txt", "a.txt", "text/plain", FileStatus.success, none,
              [⟨"a a".toList, 1, "**a** **a**".toList, 2⟩], 1, 2⟩ : SearchResult)].filter
              (fun r => decide (0 < r.matchCount))).map (fun r =>
            joinComma ((([r.fileName.toList, r.filePath.toList]
              ++ (["a".toList].map (fun term => natToStr
                    (countTerm ⟨MatchType.any, false, false⟩ (csvMatchText r) term)))
              ++ [natToStr r.totalOccurrences])).map escapeCell)))
    ∧ (["File Name".toList, "File Path".toList] ++ ["a".toList]
        ++ ["Total Occurrences".toList]).length = ["a".toList].length + 3
    ∧ escapeCell ['x', '"'] =
        '"' :: (['x', '"'].flatMap (fun c => if c = '"' then ['"', '"'] else [c])) ++ ['"'] := by
  obtain ⟨h1, h2, h3⟩ := downloadCSV_semantics ⟨MatchType.any, false, false⟩ ["a".toList]
    [⟨"a.txt", "a.txt", "text/plain", FileStatus.success, none,
      [⟨"a a".toList, 1, "**a** **a**".toList, 2⟩], 1, 2⟩] (by decide)
  exact ⟨h1, h2, h3 ['x', '"']⟩

theorem no_results_not_error_witness :
    (⟨[⟨"a.txt", "a.txt", "text/plain", FileStatus.success, none, [], 0, 0⟩],
        none, 1, 1, false⟩ : RunOutcome).error = none
    ∧ (⟨[⟨"a.txt", "a.txt", "text/plain", FileStatus.success, none, [], 0, 0⟩],
        none, 1, 1, false⟩ : RunOutcome).isSearching = false :=
  no_results_not_error ⟨MatchType.any, false, false⟩ [['q']]
    [⟨"a.txt", "a.txt", "text/plain", 3, Except.error "x", Except.error "x",
      Except.ok "xyz".toList⟩]
    ⟨[⟨"a.txt", "a.txt", "text/plain", FileStatus.success, none, [], 0, 0⟩], none, 1, 1, false⟩
    (by decide) (by decide)
